import Mathlib

/-
Verification of the AgentWeaver orchestration core.

This file gives a shallow embedding, in Lean 4, of the parts of the
AgentWeaver source that the verified properties talk about:

  * src/src/orchestration/supervisor.py  (SupervisorNode: registry,
    capability matching, task queue, completion and queue reprocessing)
  * src/src/conditional_workflow.py      (ConditionalRouter,
    AgentFailureManager, recovery / error-handler / finalizer nodes)
  * src/src/agents/base_agent.py         (BaseWorkerAgent.can_handle_task)
  * src/src/p2p_communication.py         (AgentMessage, MessageQueue,
    P2PCommunicationManager: send, broadcast, inbox, mark_processed)

Python dicts are embedded as association lists in insertion order (Python
3.7+ dicts iterate in insertion order, which the scheduler relies on);
mutation of an object found in a registry is embedded as replacement of
the first list element satisfying the lookup predicate.  uuid4 / utcnow
are embedded as a monotone counter carried in the manager state.
Floating-point routing signals are embedded as rationals.  Unbounded
payload dictionaries that no verified property inspects (log entries,
perfomance counters, result payloads) are embedded as opaque tag values.
-/

namespace AgentWeaver

/-- Modelled from the spec: the module src/src/core/models.py (imported by
supervisor.py as the source of AgentCapability, AgentStatus, TaskStatus,
TaskPriority, AgentState and Task) is not present under src/; the enum
vocabulary follows spec section 3 and the repository tests. -/
inductive AgentCapability where
  | research | analysis | coordination | communication
  | data_processing | planning | execution | api_client
  deriving DecidableEq, Repr

/-- Modelled from the spec: worker lifecycle status, spec section 3. -/
inductive AgentStatus where
  | available | busy | error | offline
  deriving DecidableEq, Repr

/-- Modelled from the spec: task lifecycle status, spec section 3. -/
inductive TaskStatus where
  | pending | in_progress | completed | failed
  deriving DecidableEq, Repr

/-- Modelled from the spec: task priority levels, spec section 3. -/
inductive TaskPriority where
  | low | medium | high | urgent
  deriving DecidableEq, Repr

/-- Modelled from the spec: the AgentState record of the missing
src/src/core/models.py, restricted to the fields the supervisor code
reads and writes (performance counters and timestamps are not consulted
by any verified property). -/
structure AgentState where
  agent_id : String
  name : String
  capabilities : List AgentCapability
  status : AgentStatus
  current_task_id : Option String
  deriving DecidableEq, Repr

/-- Modelled from the spec: the Task record of the missing
src/src/core/models.py, restricted to the fields the supervisor code
reads and writes. -/
structure Task where
  task_id : String
  title : String
  required_capabilities : List AgentCapability
  priority : TaskPriority
  status : TaskStatus
  assigned_agent_id : Option String
  deriving DecidableEq, Repr

/-- Modelled from the spec: Task.assign_task of the missing models.py;
per spec section 3 assignment sets the assigned worker and moves the
task to in_progress. -/
def Task.assign_task (t : Task) (aid : String) : Task :=
  { t with assigned_agent_id := some aid, status := .in_progress }

/-- SupervisorNode._agent_has_required_capabilities
(src/src/orchestration/supervisor.py, lines 400-417): an empty
requirement list matches trivially, otherwise the required set must be a
subset of the agent capability set. -/
def agent_has_required_capabilities (agent : AgentState)
    (required_capabilities : List AgentCapability) : Bool :=
  if required_capabilities.isEmpty then true
  else required_capabilities.all (fun c => agent.capabilities.contains c)

/-- The availability-and-capability test applied to each registry entry
by SupervisorNode._find_suitable_agent (supervisor.py, lines 394-397). -/
def suitable (t : Task) (a : AgentState) : Bool :=
  a.status == .available && agent_has_required_capabilities a t.required_capabilities

/-- SupervisorNode._find_suitable_agent (supervisor.py, lines 384-398):
first registry entry, in insertion order, that is available and has the
required capabilities. -/
def find_suitable_agent (registry : List AgentState) (t : Task) : Option AgentState :=
  registry.find? (suitable t)

/-- Replacement of the first element satisfying p: the embedding of an
in-place mutation of the object returned by a registry lookup. -/
def updateFirst (p : α → Bool) (f : α → α) : List α → List α
  | [] => []
  | a :: l => if p a then f a :: l else a :: updateFirst p f l

/-- The in-place update applied to the matched agent by
SupervisorNode._assign_task_node (supervisor.py, lines 236-238). -/
def assign_agent (a : AgentState) (tid : String) : AgentState :=
  { a with status := .busy, current_task_id := some tid }

/-- Outcome reported by _assign_task_node in state.assignment_result. -/
inductive AssignResult where
  | assigned (agent_id : String)
  | queued
  deriving DecidableEq, Repr

/-- Output of one _assign_task_node invocation: the updated registry and
queue, the task record after the call, and the reported result. -/
structure AssignOut where
  registry : List AgentState
  queue : List Task
  task : Task
  result : AssignResult
  deriving DecidableEq, Repr

/-- SupervisorNode._assign_task_node (supervisor.py, lines 206-279): find
a suitable agent; on a match mark the agent busy and link both records,
otherwise append the task to the FIFO queue and report Queued. -/
def assign_task_node (registry : List AgentState) (queue : List Task)
    (t : Task) : AssignOut :=
  match find_suitable_agent registry t with
  | some a =>
      { registry := updateFirst (suitable t) (fun x => assign_agent x t.task_id) registry
        queue := queue
        task := (t.assign_task a.agent_id)
        result := .assigned a.agent_id }
  | none =>
      { registry := registry
        queue := queue ++ [t]
        task := t
        result := .queued }

/-- SupervisorNode._unregister_agent_node (supervisor.py, lines 155-204):
delete the agent from the registry if present; the task queue is not
touched by this node. -/
def unregister_agent_node (registry : List AgentState) (queue : List Task)
    (aid : String) : List AgentState × List Task × Bool :=
  if registry.any (fun a => a.agent_id == aid) then
    (registry.filter (fun a => !(a.agent_id == aid)), queue, true)
  else
    (registry, queue, false)

/-- SupervisorNode._process_queued_tasks (supervisor.py, lines 561-580):
iterate the queue in FIFO order, assigning each task whose requirements a
currently available agent satisfies and keeping the rest. -/
def process_queued_tasks (registry : List AgentState) :
    List Task → List AgentState × List Task
  | [] => (registry, [])
  | t :: rest =>
    match find_suitable_agent registry t with
    | some _ =>
        process_queued_tasks
          (updateFirst (suitable t) (fun x => assign_agent x t.task_id) registry) rest
    | none =>
        let out := process_queued_tasks registry rest
        (out.1, t :: out.2)

/-- Output of SupervisorNode.mark_task_complete. -/
structure CompleteOut where
  registry : List AgentState
  queue : List Task
  success : Bool
  deriving DecidableEq, Repr

/-- SupervisorNode.mark_task_complete (supervisor.py, lines 530-559): if
the agent exists and currently holds the task, free it and reprocess the
queue; otherwise report failure and change nothing. -/
def mark_task_complete (registry : List AgentState) (queue : List Task)
    (task_id agent_id : String) : CompleteOut :=
  match registry.find? (fun a => a.agent_id == agent_id) with
  | some a =>
      if a.current_task_id == some task_id then
        let registry1 := updateFirst (fun x => x.agent_id == agent_id)
          (fun x => { x with status := .available, current_task_id := none }) registry
        let out := process_queued_tasks registry1 queue
        { registry := out.1, queue := out.2, success := true }
      else
        { registry := registry, queue := queue, success := false }
  | none => { registry := registry, queue := queue, success := false }

-- Helper lemmas about find? and updateFirst

theorem find?_split {α : Type} {p : α → Bool} {l : List α} {a : α}
    (h : l.find? p = some a) :
    ∃ l1 l2, l = l1 ++ a :: l2 ∧ (∀ b ∈ l1, p b = false) ∧ p a = true := by
  induction l with
  | nil => simp [List.find?] at h
  | cons x xs ih =>
    by_cases hx : p x
    · refine ⟨[], xs, ?_, ?_, ?_⟩ <;> simp_all [List.find?_cons_of_pos]
    · rw [List.find?_cons_of_neg _ (by simpa using hx)] at h
      obtain ⟨l1, l2, hl, hl1, hpa⟩ := ih h
      exact ⟨x :: l1, l2, by simp [hl], by
        intro b hb
        rcases List.mem_cons.mp hb with rfl | hb
        · simpa using hx
        · exact hl1 b hb, hpa⟩

theorem updateFirst_of_split {α : Type} {p : α → Bool} (f : α → α)
    {l1 l2 : List α} {a : α} (h1 : ∀ b ∈ l1, p b = false) (ha : p a = true) :
    updateFirst p f (l1 ++ a :: l2) = l1 ++ f a :: l2 := by
  induction l1 with
  | nil => simp [updateFirst, ha]
  | cons x xs ih =>
    have hx : p x = false := h1 x (by simp)
    simp only [List.cons_append, updateFirst, hx]
    simp only [Bool.false_eq_true, if_false, List.cons.injEq, true_and]
    exact ih (fun b hb => h1 b (by simp [hb]))

theorem suitable_superset {t : Task} {a : AgentState} (h : suitable t a = true) :
    a.status = .available ∧ ∀ c ∈ t.required_capabilities, c ∈ a.capabilities := by
  unfold suitable agent_has_required_capabilities at h
  rw [Bool.and_eq_true] at h
  obtain ⟨hs, hc⟩ := h
  refine ⟨by simpa using hs, ?_⟩
  intro c hc'
  have hne : t.required_capabilities.isEmpty = false := by
    cases hreq : t.required_capabilities with
    | nil => rw [hreq] at hc'; simp at hc'
    | cons x xs => simp [hreq]
  rw [hne] at hc
  simp only [Bool.false_eq_true, if_false, List.all_eq_true] at hc
  have := hc c hc'
  simpa [List.contains, List.elem_eq_mem] using this

/-- C1: submit_task assigns the task to the first worker in registry
insertion order that is available with a capability superset of the
required set (empty requirement matching any available worker); on a
match the worker becomes busy and the task in_progress with both linked
and the queue untouched, and on no match the task is appended to the
FIFO queue and the call reports Queued.  In particular a task is never
assigned to a worker whose capabilities are not a superset of its
requirements. -/
theorem submit_task_first_fit (registry : List AgentState) (queue : List Task)
    (t : Task) :
    (∀ aid, (assign_task_node registry queue t).result = .assigned aid →
      ∃ a l1 l2, registry = l1 ++ a :: l2 ∧ aid = a.agent_id ∧
        a.status = .available ∧
        (∀ c ∈ t.required_capabilities, c ∈ a.capabilities) ∧
        (∀ b ∈ l1, suitable t b = false) ∧
        (assign_task_node registry queue t).registry =
          l1 ++ assign_agent a t.task_id :: l2 ∧
        (assign_agent a t.task_id).status = .busy ∧
        (assign_agent a t.task_id).current_task_id = some t.task_id ∧
        (assign_task_node registry queue t).task.status = .in_progress ∧
        (assign_task_node registry queue t).task.assigned_agent_id = some a.agent_id ∧
        (assign_task_node registry queue t).queue = queue) ∧
    ((assign_task_node registry queue t).result = .queued →
      find_suitable_agent registry t = none ∧
      (assign_task_node registry queue t).queue = queue ++ [t] ∧
      (assign_task_node registry queue t).registry = registry ∧
      (assign_task_node registry queue t).task = t) := by
  constructor
  · intro aid hres
    match hfind : find_suitable_agent registry t with
    | none => simp [assign_task_node, hfind] at hres
    | some a =>
      obtain ⟨l1, l2, hl, hl1, hpa⟩ := find?_split hfind
      obtain ⟨hav, hsup⟩ := suitable_superset hpa
      have haid : aid = a.agent_id := by
        have := hres
        simp [assign_task_node, hfind] at this
        exact this.symm
      refine ⟨a, l1, l2, hl, haid, hav, hsup, hl1, ?_, rfl, rfl, ?_, ?_, ?_⟩
      · simp only [assign_task_node, hfind]
        rw [hl]
        exact updateFirst_of_split _ hl1 hpa
      · simp [assign_task_node, hfind, Task.assign_task]
      · simp [assign_task_node, hfind, Task.assign_task]
      · simp [assign_task_node, hfind]
  · intro hres
    match hfind : find_suitable_agent registry t with
    | some a => simp [assign_task_node, hfind] at hres
    | none => simp [assign_task_node, hfind]

/-- Witness for C1: a concrete registry in which the second worker is the
first available capability superset; the theorem instantiated there. -/
theorem submit_task_first_fit_witness :
    (∀ aid, (assign_task_node
        [⟨"w1", "W1", [.research], .busy, some "t0"⟩,
         ⟨"w2", "W2", [.research, .analysis], .available, none⟩]
        [] ⟨"t1", "T1", [.research], .medium, .pending, none⟩).result = .assigned aid →
      ∃ a l1 l2,
        [(⟨"w1", "W1", [.research], .busy, some "t0"⟩ : AgentState),
         ⟨"w2", "W2", [.research, .analysis], .available, none⟩] = l1 ++ a :: l2 ∧
        aid = a.agent_id ∧
        a.status = .available ∧
        (∀ c ∈ (⟨"t1", "T1", [.research], .medium, .pending, none⟩ : Task).required_capabilities,
          c ∈ a.capabilities) ∧
        (∀ b ∈ l1, suitable ⟨"t1", "T1", [.research], .medium, .pending, none⟩ b = false) ∧
        (assign_task_node
          [⟨"w1", "W1", [.research], .busy, some "t0"⟩,
           ⟨"w2", "W2", [.research, .analysis], .available, none⟩]
          [] ⟨"t1", "T1", [.research], .medium, .pending, none⟩).registry =
          l1 ++ assign_agent a "t1" :: l2 ∧
        (assign_agent a "t1").status = .busy ∧
        (assign_agent a "t1").current_task_id = some "t1" ∧
        (assign_task_node
          [⟨"w1", "W1", [.research], .busy, some "t0"⟩,
           ⟨"w2", "W2", [.research, .analysis], .available, none⟩]
          [] ⟨"t1", "T1", [.research], .medium, .pending, none⟩).task.status = .in_progress ∧
        (assign_task_node
          [⟨"w1", "W1", [.research], .busy, some "t0"⟩,
           ⟨"w2", "W2", [.research, .analysis], .available, none⟩]
          [] ⟨"t1", "T1", [.research], .medium, .pending, none⟩).task.assigned_agent_id =
          some a.agent_id ∧
        (assign_task_node
          [⟨"w1", "W1", [.research], .busy, some "t0"⟩,
           ⟨"w2", "W2", [.research, .analysis], .available, none⟩]
          [] ⟨"t1", "T1", [.research], .medium, .pending, none⟩).queue = []) ∧
    ((assign_task_node
        [⟨"w1", "W1", [.research], .busy, some "t0"⟩,
         ⟨"w2", "W2", [.research, .analysis], .available, none⟩]
        [] ⟨"t1", "T1", [.research], .medium, .pending, none⟩).result = .queued →
      find_suitable_agent
        [⟨"w1", "W1", [.research], .busy, some "t0"⟩,
         ⟨"w2", "W2", [.research, .analysis], .available, none⟩]
        ⟨"t1", "T1", [.research], .medium, .pending, none⟩ = none ∧
      (assign_task_node
        [⟨"w1", "W1", [.research], .busy, some "t0"⟩,
         ⟨"w2", "W2", [.research, .analysis], .available, none⟩]
        [] ⟨"t1", "T1", [.research], .medium, .pending, none⟩).queue =
        [] ++ [⟨"t1", "T1", [.research], .medium, .pending, none⟩] ∧
      (assign_task_node
        [⟨"w1", "W1", [.research], .busy, some "t0"⟩,
         ⟨"w2", "W2", [.research, .analysis], .available, none⟩]
        [] ⟨"t1", "T1", [.research], .medium, .pending, none⟩).registry =
        [⟨"w1", "W1", [.research], .busy, some "t0"⟩,
         ⟨"w2", "W2", [.research, .analysis], .available, none⟩] ∧
      (assign_task_node
        [⟨"w1", "W1", [.research], .busy, some "t0"⟩,
         ⟨"w2", "W2", [.research, .analysis], .available, none⟩]
        [] ⟨"t1", "T1", [.research], .medium, .pending, none⟩).task =
        ⟨"t1", "T1", [.research], .medium, .pending, none⟩) :=
  submit_task_first_fit
    [⟨"w1", "W1", [.research], .busy, some "t0"⟩,
     ⟨"w2", "W2", [.research, .analysis], .available, none⟩]
    [] ⟨"t1", "T1", [.research], .medium, .pending, none⟩

-- C2: queue reprocessing.  During one _process_queued_tasks pass an agent
-- record is either untouched or moved from available to busy; the degrade
-- relation captures exactly that, positionally.

/-- One reprocessing step either leaves an agent record unchanged or
marks a previously available agent busy with some task. -/
def degrade (a b : AgentState) : Prop :=
  b = a ∨ (a.status = .available ∧ ∃ tid, b = assign_agent a tid)

theorem degrade_trans {a b c : AgentState} (h1 : degrade a b) (h2 : degrade b c) :
    degrade a c := by
  rcases h1 with rfl | ⟨hav, tid, rfl⟩
  · exact h2
  · rcases h2 with rfl | ⟨hav2, tid2, rfl⟩
    · exact Or.inr ⟨hav, tid, rfl⟩
    · simp [assign_agent] at hav2

theorem forall₂_degrade_refl (l : List AgentState) : List.Forall₂ degrade l l :=
  List.forall₂_same.2 (fun _ _ => Or.inl rfl)

theorem forall₂_degrade_trans {l1 l2 l3 : List AgentState}
    (h12 : List.Forall₂ degrade l1 l2) (h23 : List.Forall₂ degrade l2 l3) :
    List.Forall₂ degrade l1 l3 := by
  induction h12 generalizing l3 with
  | nil => cases h23; exact .nil
  | cons h _ ih =>
    cases h23 with
    | cons h' hs' => exact .cons (degrade_trans h h') (ih hs')

theorem exists_degrade_of_mem {l l' : List AgentState} {x : AgentState}
    (h : List.Forall₂ degrade l l') (hx : x ∈ l') : ∃ a ∈ l, degrade a x := by
  induction h with
  | nil => cases hx
  | cons hab hs ih =>
    rcases List.mem_cons.mp hx with rfl | hx'
    · exact ⟨_, by simp, hab⟩
    · obtain ⟨a, ha, hd⟩ := ih hx'
      exact ⟨a, by simp [ha], hd⟩

theorem busy_mem_of_degrade {l l' : List AgentState} {x : AgentState}
    (h : List.Forall₂ degrade l l') (hx : x ∈ l) (hb : x.status = .busy) :
    x ∈ l' := by
  induction h with
  | nil => cases hx
  | cons hab hs ih =>
    rcases List.mem_cons.mp hx with rfl | hx'
    · rcases hab with rfl | ⟨hav, tid, rfl⟩
      · simp
      · rw [hav] at hb; cases hb
    · simp [ih hx']

theorem updateFirst_assign_degrade (t : Task) (l : List AgentState) :
    List.Forall₂ degrade l
      (updateFirst (suitable t) (fun x => assign_agent x t.task_id) l) := by
  induction l with
  | nil => exact .nil
  | cons a l ih =>
    by_cases h : suitable t a = true
    · simp only [updateFirst, h, if_true]
      exact .cons (Or.inr ⟨(suitable_superset h).1, t.task_id, rfl⟩)
        (forall₂_degrade_refl l)
    · simp only [updateFirst, h, if_false, Bool.false_eq_true]
      exact .cons (Or.inl rfl) ih

theorem find_none_of_degrade {t : Task} {l l' : List AgentState}
    (h : List.Forall₂ degrade l l') (hn : find_suitable_agent l t = none) :
    find_suitable_agent l' t = none := by
  rw [find_suitable_agent, List.find?_eq_none] at hn ⊢
  intro x hx hsx
  obtain ⟨a, ha, hd⟩ := exists_degrade_of_mem h hx
  rcases hd with rfl | ⟨hav, tid, rfl⟩
  · exact hn x ha hsx
  · have := (suitable_superset hsx).1
    simp [assign_agent] at this

theorem mem_updateFirst_of_find? {α : Type} {p : α → Bool} {l : List α} {a : α}
    (f : α → α) (h : l.find? p = some a) : f a ∈ updateFirst p f l := by
  induction l with
  | nil => simp [List.find?] at h
  | cons x xs ih =>
    by_cases hx : p x
    · rw [List.find?_cons_of_pos _ hx] at h
      cases h
      simp [updateFirst, hx]
    · rw [List.find?_cons_of_neg _ (by simpa using hx)] at h
      simp only [updateFirst, hx, if_false, Bool.false_eq_true]
      exact List.mem_cons_of_mem _ (ih h)

theorem process_queued_tasks_spec (q : List Task) (registry : List AgentState) :
    List.Forall₂ degrade registry (process_queued_tasks registry q).1
    ∧ (process_queued_tasks registry q).2.Sublist q
    ∧ (∀ t ∈ (process_queued_tasks registry q).2,
        find_suitable_agent (process_queued_tasks registry q).1 t = none)
    ∧ (∀ t ∈ q, t ∉ (process_queued_tasks registry q).2 →
        ∃ a ∈ (process_queued_tasks registry q).1,
          a.status = .busy ∧ a.current_task_id = some t.task_id) := by
  induction q generalizing registry with
  | nil =>
    exact ⟨forall₂_degrade_refl registry, by simp [process_queued_tasks],
      by simp [process_queued_tasks], by simp⟩
  | cons t rest ih =>
    cases hfind : find_suitable_agent registry t with
    | some a =>
      have hstep := updateFirst_assign_degrade t registry
      obtain ⟨ihd, ihs, ihn, ihb⟩ :=
        ih (updateFirst (suitable t) (fun x => assign_agent x t.task_id) registry)
      refine ⟨?_, ?_, ?_, ?_⟩ <;>
        simp only [process_queued_tasks, hfind]
      · exact forall₂_degrade_trans hstep ihd
      · exact ihs.cons t
      · exact ihn
      · intro t' ht' hnot
        rcases List.mem_cons.mp ht' with rfl | ht''
        · have hmem := mem_updateFirst_of_find? (fun x => assign_agent x t'.task_id) hfind
          refine ⟨assign_agent a t'.task_id, busy_mem_of_degrade ihd hmem rfl, rfl, rfl⟩
        · exact ihb t' ht'' hnot
    | none =>
      obtain ⟨ihd, ihs, ihn, ihb⟩ := ih registry
      refine ⟨?_, ?_, ?_, ?_⟩ <;>
        simp only [process_queued_tasks, hfind]
      · exact ihd
      · exact ihs.cons₂ t
      · intro t' ht'
        rcases List.mem_cons.mp ht' with rfl | ht''
        · exact find_none_of_degrade ihd hfind
        · exact ihn t' ht''
      · intro t' ht' hnot
        rcases List.mem_cons.mp ht' with rfl | ht''
        · exact absurd (List.mem_cons_self _ _) hnot
        · exact ihb t' ht'' (fun hmem => hnot (List.mem_cons_of_mem _ hmem))

/-- C2 counterexample: in the code, unregistration does not reprocess the
queue.  Concretely: worker a1 (research, available) and worker b1 are
registered and task t9 (requires research) sits in the queue; the
unregistration of b1 succeeds, yet t9 is still queued even though the
available worker a1 satisfies its requirements, contradicting the claim
that every unregister call assigns each now-satisfiable queued task. -/
theorem unregister_leaves_satisfiable_task_queued :
    (unregister_agent_node
      [⟨"a1", "A", [.research], .available, none⟩,
       ⟨"b1", "B", [], .available, none⟩]
      [⟨"t9", "T9", [.research], .medium, .pending, none⟩] "b1").2.2 = true ∧
    (unregister_agent_node
      [⟨"a1", "A", [.research], .available, none⟩,
       ⟨"b1", "B", [], .available, none⟩]
      [⟨"t9", "T9", [.research], .medium, .pending, none⟩] "b1").2.1 =
      [⟨"t9", "T9", [.research], .medium, .pending, none⟩] ∧
    find_suitable_agent
      (unregister_agent_node
        [⟨"a1", "A", [.research], .available, none⟩,
         ⟨"b1", "B", [], .available, none⟩]
        [⟨"t9", "T9", [.research], .medium, .pending, none⟩] "b1").1
      ⟨"t9", "T9", [.research], .medium, .pending, none⟩ =
      some ⟨"a1", "A", [.research], .available, none⟩ := by
  refine ⟨by decide, by decide, by decide⟩

/-- C2 amended: queue reprocessing runs after every successful
mark_task_complete call (the queue is iterated in FIFO order, every task
satisfiable by a now-available worker is assigned — each to a worker
marked busy and linked to it — and the remaining queue is a subsequence
of the old queue with no satisfiable task left), but unregistration does
NOT reprocess the queue: _unregister_agent_node returns the task queue
unchanged. -/
theorem mark_task_complete_drains_queue (registry : List AgentState)
    (queue : List Task) (task_id agent_id : String)
    (h : (mark_task_complete registry queue task_id agent_id).success = true) :
    (mark_task_complete registry queue task_id agent_id).queue.Sublist queue
    ∧ (∀ t ∈ (mark_task_complete registry queue task_id agent_id).queue,
        find_suitable_agent
          (mark_task_complete registry queue task_id agent_id).registry t = none)
    ∧ (∀ t ∈ queue, t ∉ (mark_task_complete registry queue task_id agent_id).queue →
        ∃ a ∈ (mark_task_complete registry queue task_id agent_id).registry,
          a.status = .busy ∧ a.current_task_id = some t.task_id)
    ∧ (∀ (reg2 : List AgentState) (q2 : List Task) (aid2 : String),
        (unregister_agent_node reg2 q2 aid2).2.1 = q2) := by
  have hunreg : ∀ (reg2 : List AgentState) (q2 : List Task) (aid2 : String),
      (unregister_agent_node reg2 q2 aid2).2.1 = q2 := by
    intro reg2 q2 aid2
    unfold unregister_agent_node
    split <;> rfl
  cases hf : registry.find? (fun a => a.agent_id == agent_id) with
  | none => simp [mark_task_complete, hf] at h
  | some a =>
    by_cases hcur : a.current_task_id == some task_id
    · obtain ⟨hd, hs, hn, hb⟩ := process_queued_tasks_spec queue
        (updateFirst (fun x => x.agent_id == agent_id)
          (fun x => { x with status := .available, current_task_id := none }) registry)
      refine ⟨?_, ?_, ?_, hunreg⟩ <;>
        simp only [mark_task_complete, hf, hcur, if_true]
      · exact hs
      · exact hn
      · exact hb
    · simp [mark_task_complete, hf, hcur] at h

/-- Witness for C2: worker w1 is busy on t1; t2 (requires research) is
queued; completing t1 succeeds and the amended theorem applies. -/
theorem mark_task_complete_drains_queue_witness :
    (mark_task_complete [⟨"w1", "W1", [.research], .busy, some "t1"⟩]
      [⟨"t2", "T2", [.research], .medium, .pending, none⟩] "t1" "w1").success = true
    ∧ ((mark_task_complete [⟨"w1", "W1", [.research], .busy, some "t1"⟩]
        [⟨"t2", "T2", [.research], .medium, .pending, none⟩] "t1" "w1").queue.Sublist
        [⟨"t2", "T2", [.research], .medium, .pending, none⟩]
      ∧ (∀ t ∈ (mark_task_complete [⟨"w1", "W1", [.research], .busy, some "t1"⟩]
            [⟨"t2", "T2", [.research], .medium, .pending, none⟩] "t1" "w1").queue,
          find_suitable_agent
            (mark_task_complete [⟨"w1", "W1", [.research], .busy, some "t1"⟩]
              [⟨"t2", "T2", [.research], .medium, .pending, none⟩] "t1" "w1").registry t =
            none)
      ∧ (∀ t ∈ [(⟨"t2", "T2", [.research], .medium, .pending, none⟩ : Task)],
          t ∉ (mark_task_complete [⟨"w1", "W1", [.research], .busy, some "t1"⟩]
              [⟨"t2", "T2", [.research], .medium, .pending, none⟩] "t1" "w1").queue →
          ∃ a ∈ (mark_task_complete [⟨"w1", "W1", [.research], .busy, some "t1"⟩]
              [⟨"t2", "T2", [.research], .medium, .pending, none⟩] "t1" "w1").registry,
            a.status = .busy ∧ a.current_task_id = some t.task_id)
      ∧ (∀ (reg2 : List AgentState) (q2 : List Task) (aid2 : String),
          (unregister_agent_node reg2 q2 aid2).2.1 = q2)) :=
  ⟨by decide,
    mark_task_complete_drains_queue [⟨"w1", "W1", [.research], .busy, some "t1"⟩]
      [⟨"t2", "T2", [.research], .medium, .pending, none⟩] "t1" "w1" (by decide)⟩

-- C5: the worker contract default capability test.

/-- BaseWorkerAgent.can_handle_task (src/src/agents/base_agent.py, lines
84-98): an empty requirement list is accepted; otherwise the agent is
accepted when ANY required capability is among its capabilities. -/
def can_handle_task (capabilities : List AgentCapability) (t : Task) : Bool :=
  if t.required_capabilities.isEmpty then true
  else t.required_capabilities.any (fun c => capabilities.contains c)

/-- C5 counterexample: a worker advertising only research accepts a task
requiring research AND analysis, although its capability set is not a
superset of the requirement set — the default test is an intersection
test, not the subset test the claim states. -/
theorem can_handle_task_not_subset :
    can_handle_task [.research]
      ⟨"t3", "T3", [.research, .analysis], .medium, .pending, none⟩ = true
    ∧ ¬((⟨"t3", "T3", [.research, .analysis], .medium, .pending, none⟩ :
          Task).required_capabilities = [] ∨
        ∀ c ∈ (⟨"t3", "T3", [.research, .analysis], .medium, .pending, none⟩ :
          Task).required_capabilities, c ∈ [AgentCapability.research]) := by
  decide

/-- C5 amended: the default can_handle test accepts a task exactly when
the task's required capability set is empty or shares at least one
capability with the worker's set; a worker lacking every required
capability is rejected, but a worker holding just one of several
required capabilities is accepted. -/
theorem can_handle_task_iff_intersects (capabilities : List AgentCapability)
    (t : Task) :
    can_handle_task capabilities t = true ↔
      (t.required_capabilities = [] ∨
        ∃ c ∈ t.required_capabilities, c ∈ capabilities) := by
  cases hreq : t.required_capabilities with
  | nil => simp [can_handle_task, hreq]
  | cons x xs =>
    simp [can_handle_task, hreq, List.any_eq_true, List.contains, List.elem_eq_mem]

-- C3, C4, C8: the conditional workflow state machine.

/-- Step-result payloads: the verified properties only move and look up
whole entries of step_results, so the payload dictionaries are embedded
as opaque tags, except the record the recovery node itself writes. -/
inductive StepVal where
  | payload (tag : Nat)
  | recoveryRecord (failed_agent backup_agent : String) (attempt : Nat)
  deriving DecidableEq, Repr

/-- ConditionalWorkflowState (src/src/conditional_workflow.py, lines
24-84) restricted to the fields the verified routing and recovery
properties consult; optional dict entries read through .get with a
default are embedded as Option fields read with getD. -/
structure WState where
  current_step : String
  completed_steps : List String
  step_results : List (String × StepVal)
  sentiment_score : Option Rat
  error_occurred : Bool
  error_message : Option String
  error_step : Option String
  failed_agent_id : Option String
  required_capability : Option String
  backup_agent_used : Bool
  reroute_count : Nat
  max_reroutes : Nat
  status : String
  deriving DecidableEq

/-- A baseline workflow state carrying the model defaults of
ConditionalWorkflowState. -/
def initialWState : WState :=
  { current_step := "start", completed_steps := [], step_results := []
    sentiment_score := none, error_occurred := false, error_message := none
    error_step := none, failed_agent_id := none, required_capability := none
    backup_agent_used := false, reroute_count := 0, max_reroutes := 3
    status := "running" }

/-- ConditionalRouter._route_by_sentiment (conditional_workflow.py, lines
158-179): a missing or null score is replaced by 0.0, then fixed
thresholds pick the path. -/
def route_by_sentiment (s : WState) : String :=
  if (7 : Rat)/10 ≤ s.sentiment_score.getD 0 then "positive_sentiment_processor"
  else if s.sentiment_score.getD 0 ≤ -((3 : Rat)/10) then "negative_sentiment_processor"
  else "neutral_sentiment_processor"

/-- C8: sentiment routing returns the positive path exactly when the
score is at least 0.7, the negative path exactly when it is at most
-0.3, the neutral path otherwise, and a missing score is treated as 0.0
and routed neutral. -/
theorem route_by_sentiment_thresholds (s : WState) :
    (route_by_sentiment s = "positive_sentiment_processor" ↔
      (7 : Rat)/10 ≤ s.sentiment_score.getD 0)
    ∧ (route_by_sentiment s = "negative_sentiment_processor" ↔
      s.sentiment_score.getD 0 ≤ -((3 : Rat)/10))
    ∧ (route_by_sentiment s = "neutral_sentiment_processor" ↔
      (s.sentiment_score.getD 0 < (7 : Rat)/10 ∧
        -((3 : Rat)/10) < s.sentiment_score.getD 0))
    ∧ (s.sentiment_score = none →
      route_by_sentiment s = "neutral_sentiment_processor") := by
  have hpn : ("positive_sentiment_processor" : String) ≠
      "negative_sentiment_processor" := by decide
  have hpu : ("positive_sentiment_processor" : String) ≠
      "neutral_sentiment_processor" := by decide
  have hnu : ("negative_sentiment_processor" : String) ≠
      "neutral_sentiment_processor" := by decide
  unfold route_by_sentiment
  by_cases h1 : (7 : Rat)/10 ≤ s.sentiment_score.getD 0
  · rw [if_pos h1]
    refine ⟨by simp [h1], ⟨fun h => absurd h hpn, fun h => by linarith⟩,
      ⟨fun h => absurd h hpu, fun h => by linarith [h.1]⟩, fun hnone => ?_⟩
    rw [hnone] at h1
    norm_num at h1
  · rw [if_neg h1]
    push_neg at h1
    by_cases h2 : s.sentiment_score.getD 0 ≤ -((3 : Rat)/10)
    · rw [if_pos h2]
      refine ⟨⟨fun h => absurd h.symm hpn, fun h => by linarith⟩, by simp [h2],
        ⟨fun h => absurd h hnu, fun h => by linarith [h.2]⟩, fun hnone => ?_⟩
      rw [hnone] at h2
      norm_num at h2
    · rw [if_neg h2]
      push_neg at h2
      exact ⟨⟨fun h => absurd h.symm hpu, fun h => by linarith⟩,
        ⟨fun h => absurd h.symm hnu, fun h => by linarith⟩,
        ⟨fun _ => ⟨h1, h2⟩, fun _ => rfl⟩, fun _ => rfl⟩

/-- Witness for C8: the theorem applied to the baseline state, whose
sentiment score is missing; routing is neutral. -/
theorem route_by_sentiment_thresholds_witness :
    (route_by_sentiment initialWState = "positive_sentiment_processor" ↔
      (7 : Rat)/10 ≤ initialWState.sentiment_score.getD 0)
    ∧ (route_by_sentiment initialWState = "negative_sentiment_processor" ↔
      initialWState.sentiment_score.getD 0 ≤ -((3 : Rat)/10))
    ∧ (route_by_sentiment initialWState = "neutral_sentiment_processor" ↔
      (initialWState.sentiment_score.getD 0 < (7 : Rat)/10 ∧
        -((3 : Rat)/10) < initialWState.sentiment_score.getD 0))
    ∧ (initialWState.sentiment_score = none →
      route_by_sentiment initialWState = "neutral_sentiment_processor") :=
  route_by_sentiment_thresholds initialWState

-- Association-list embedding of the Python dict operations used by the
-- workflow code (a CPython dict has unique keys; assignment replaces the
-- binding in place, pop removes it, iteration is insertion-ordered).

/-- Dict read: value of the first binding of k, if any. -/
def dictGet {v : Type} : List (String × v) → String → Option v
  | [], _ => none
  | p :: d, k => if p.1 == k then some p.2 else dictGet d k

/-- Dict assignment: replace the first binding of k in place, else append. -/
def dictSet {v : Type} : List (String × v) → String → v → List (String × v)
  | [], k, x => [(k, x)]
  | p :: d, k, x => if p.1 == k then (k, x) :: d else p :: dictSet d k x

/-- Dict pop: remove the first binding of k. -/
def dictPop {v : Type} : List (String × v) → String → List (String × v)
  | [], _ => []
  | p :: d, k => if p.1 == k then d else p :: dictPop d k

theorem dictGet_dictSet_self {v : Type} (d : List (String × v)) (k : String) (x : v) :
    dictGet (dictSet d k x) k = some x := by
  induction d with
  | nil => simp [dictSet, dictGet]
  | cons p d ih =>
    by_cases h : p.1 == k
    · simp [dictSet, h, dictGet]
    · simp [dictSet, h, dictGet, ih]

theorem dictGet_dictSet_ne {v : Type} (d : List (String × v)) {k k' : String}
    (x : v) (h : k' ≠ k) : dictGet (dictSet d k x) k' = dictGet d k' := by
  have hk : (k == k') = false := beq_eq_false_iff_ne.mpr (Ne.symm h)
  induction d with
  | nil => simp [dictSet, dictGet, hk]
  | cons p d ih =>
    by_cases hp : p.1 == k
    · have hpk : p.1 = k := by simpa using hp
      simp [dictSet, hp, dictGet, hk, hpk]
    · simp only [dictSet, hp, Bool.false_eq_true, if_false]
      by_cases hp' : p.1 == k'
      · simp [dictGet, hp']
      · simp [dictGet, hp', ih]

theorem dictGet_eq_none_of_not_mem {v : Type} {d : List (String × v)} {k : String}
    (h : k ∉ d.map Prod.fst) : dictGet d k = none := by
  induction d with
  | nil => rfl
  | cons p d ih =>
    simp only [List.map_cons, List.mem_cons, not_or] at h
    have hp : (p.1 == k) = false := beq_eq_false_iff_ne.mpr (fun he => h.1 he.symm)
    simp [dictGet, hp, ih h.2]

theorem dictGet_dictPop_self {v : Type} {d : List (String × v)} {k : String}
    (h : (d.map Prod.fst).Nodup) : dictGet (dictPop d k) k = none := by
  induction d with
  | nil => rfl
  | cons p d ih =>
    simp only [List.map_cons, List.nodup_cons] at h
    by_cases hp : p.1 == k
    · rw [dictPop, if_pos hp]
      have hpk : p.1 = k := by simpa using hp
      exact dictGet_eq_none_of_not_mem (hpk ▸ h.1)
    · rw [dictPop, if_neg hp]
      simp [dictGet, hp, ih h.2]

/-- AgentFailureManager.find_backup_agent (conditional_workflow.py, lines
296-324): look up the agents advertising the required capability, drop
the failed agent, return the first remaining candidate.  A missing or
empty required capability (falsy in Python) yields no backup. -/
def find_backup_agent (agent_registry : List (String × List String))
    (s : WState) : Option String :=
  match s.required_capability with
  | none => none
  | some cap =>
    if cap == "" then none
    else
      (((dictGet agent_registry cap).getD []).filter
        (fun a => !(s.failed_agent_id == some a))).head?

/-- Python truthiness of state.get("failed_agent_id") as tested by
ConditionalRouter._route_by_error_status. -/
def failedAgentTruthy (s : WState) : Bool :=
  match s.failed_agent_id with
  | some f => !(f == "")
  | none => false

/-- ConditionalRouter._route_by_error_status (conditional_workflow.py,
lines 225-238). -/
def route_by_error_status (s : WState) : String :=
  if failedAgentTruthy s && decide (s.reroute_count < s.max_reroutes) then
    "agent_failure_recovery"
  else "error_handler"

/-- The except-branch of _agent_failure_recovery_node (lines 901-907):
recovery raises to the error path, stamping failure and clearing
backup_agent_used. -/
def recoveryFail (s : WState) : WState :=
  { s with
    error_occurred := true,
    error_message := some "Agent failure recovery failed",
    error_step := some "agent_failure_recovery",
    backup_agent_used := false,
    status := "failed" }

/-- Lines 873-875: drop the failed step from completed_steps (Python
list.remove: first occurrence) when it is a truthy name and present. -/
def rewind_completed (completed : List String) : Option String → List String
  | some fs => if fs == "" then completed
      else if fs ∈ completed then completed.erase fs else completed
  | none => completed

/-- Lines 877-879: move the failed step's step_results entry to the key
"<step>_failed". -/
def archive_failed_result (results : List (String × StepVal)) :
    Option String → List (String × StepVal)
  | some fs => if fs == "" then results
      else
        match dictGet results fs with
        | some v => dictSet (dictPop results fs) (fs ++ "_failed") v
        | none => results
  | none => results

/-- The successful branch of _agent_failure_recovery_node (lines
864-897): substitute the backup, bump reroute_count, clear the error,
rewind the failed step and archive its result, then record the recovery
step itself. -/
def recovery_success_update (s : WState) (failed backup : String) : WState :=
  { s with
    backup_agent_used := true,
    reroute_count := s.reroute_count + 1,
    error_occurred := false,
    status := "rerouted",
    completed_steps :=
      rewind_completed s.completed_steps s.error_step ++ ["agent_failure_recovery"],
    step_results :=
      dictSet (archive_failed_result s.step_results s.error_step)
        "agent_failure_recovery"
        (.recoveryRecord failed backup (s.reroute_count + 1)) }

/-- ConditionalWorkflowOrchestrator._agent_failure_recovery_node
(conditional_workflow.py, lines 839-909) together with
_reassign_agent_for_retry (lines 911-930): when the reroute budget is
exhausted, no backup exists, the failed agent id is absent, or the
worker-table lookups fail (a KeyError caught by the except branch), the
node takes the failure path; otherwise the worker table maps the failed
id to the backup's implementation and the state is updated for retry. -/
def agent_failure_recovery_node (registry : List (String × List String))
    (workers : List (String × String)) (s : WState) :
    List (String × String) × WState :=
  if s.max_reroutes ≤ s.reroute_count then
    (workers, recoveryFail { s with current_step := "agent_failure_recovery" })
  else
    match find_backup_agent registry s with
    | some backup =>
      match s.failed_agent_id with
      | some failed =>
        match dictGet workers failed, dictGet workers backup with
        | some _, some bimpl =>
          (dictSet workers failed bimpl,
            recovery_success_update
              { s with current_step := "agent_failure_recovery" } failed backup)
        | some _, none =>
          (workers, recoveryFail { s with current_step := "agent_failure_recovery" })
        | none, _ =>
          (workers, recoveryFail { s with current_step := "agent_failure_recovery" })
      | none =>
        (workers, recoveryFail { s with current_step := "agent_failure_recovery" })
    | none =>
      (workers, recoveryFail { s with current_step := "agent_failure_recovery" })

/-- ConditionalWorkflowOrchestrator._error_handler_node (lines 940-982)
restricted to the verified fields: the workflow status becomes failed. -/
def error_handler_node (s : WState) : WState :=
  { s with status := "failed" }

/-- ConditionalWorkflowOrchestrator._workflow_finalizer_node (lines
984-1043) restricted to the verified fields: the status becomes
completed unless already stamped failed. -/
def workflow_finalizer_node (s : WState) : WState :=
  if s.status == "failed" then s else { s with status := "completed" }

theorem append_failed_ne_self (fs : String) : fs ++ "_failed" ≠ fs := by
  intro h
  have hd := congrArg String.data h
  rw [String.data_append] at hd
  have hlen := congrArg List.length hd
  rw [List.length_append] at hlen
  simp at hlen

theorem append_failed_ne_recovery (fs : String) :
    fs ++ "_failed" ≠ "agent_failure_recovery" := by
  intro h
  have hd : fs.data ++ "_failed".data = "agent_failure_recovery".data := by
    have := congrArg String.data h
    simpa [String.data_append] using this
  have hlen : "_failed".data.length =
      ("agent_failure_recovery".data.drop 15).length := by decide
  have hsplit : "agent_failure_recovery".data =
      "agent_failure_recovery".data.take 15 ++ "agent_failure_recovery".data.drop 15 :=
    (List.take_append_drop 15 _).symm
  rw [hsplit] at hd
  have := (List.append_inj' hd hlen).2
  exact absurd this (by decide)

/-- C3: when a step has failed, the reroute budget is not exhausted and a
backup worker with the required capability exists (and the worker table
resolves both ids), the recovery node substitutes the backup for the
failed worker, increments reroute_count by exactly one, clears
error_occurred, removes the failed step from completed_steps and moves
its step_results entry to the key "<step>_failed", so the step can be
re-entered for a retry. -/
theorem recovery_substitutes_backup_and_rewinds_step
    (registry : List (String × List String)) (workers : List (String × String))
    (s : WState) (fs failed backup bimpl : String) (v : StepVal)
    (hstep : s.error_step = some fs) (hfs : fs ≠ "")
    (hfsrec : fs ≠ "agent_failure_recovery")
    (hcount : s.completed_steps.count fs = 1)
    (hrr : s.reroute_count < s.max_reroutes)
    (hfail : s.failed_agent_id = some failed)
    (hb : find_backup_agent registry s = some backup)
    (hw1 : (dictGet workers failed).isSome = true)
    (hw2 : dictGet workers backup = some bimpl)
    (hres : dictGet s.step_results fs = some v)
    (hnodup : (s.step_results.map Prod.fst).Nodup) :
    dictGet (agent_failure_recovery_node registry workers s).1 failed = some bimpl
    ∧ (agent_failure_recovery_node registry workers s).2.reroute_count =
        s.reroute_count + 1
    ∧ (agent_failure_recovery_node registry workers s).2.error_occurred = false
    ∧ (agent_failure_recovery_node registry workers s).2.backup_agent_used = true
    ∧ fs ∉ (agent_failure_recovery_node registry workers s).2.completed_steps
    ∧ dictGet (agent_failure_recovery_node registry workers s).2.step_results fs = none
    ∧ dictGet (agent_failure_recovery_node registry workers s).2.step_results
        (fs ++ "_failed") = some v := by
  obtain ⟨w, hw⟩ := Option.isSome_iff_exists.mp hw1
  have hmax : ¬ s.max_reroutes ≤ s.reroute_count := Nat.not_le.mpr hrr
  have hout : agent_failure_recovery_node registry workers s =
      (dictSet workers failed bimpl,
        recovery_success_update { s with current_step := "agent_failure_recovery" }
          failed backup) := by
    unfold agent_failure_recovery_node
    rw [if_neg hmax]
    simp only [hb, hfail, hw, hw2]
  rw [hout]
  have hfsb : (fs == "") = false := by
    simpa using hfs
  have hmem : fs ∈ s.completed_steps := by
    have : 0 < s.completed_steps.count fs := by omega
    exact List.count_pos_iff.mp this
  have hrw : rewind_completed s.completed_steps s.error_step =
      s.completed_steps.erase fs := by
    rw [hstep]
    simp only [rewind_completed, hfsb, Bool.false_eq_true, if_false]
    simp [hmem]
  have harch : archive_failed_result s.step_results s.error_step =
      dictSet (dictPop s.step_results fs) (fs ++ "_failed") v := by
    rw [hstep]
    simp only [archive_failed_result, hfsb, Bool.false_eq_true, if_false, hres]
  refine ⟨dictGet_dictSet_self workers failed bimpl, rfl, rfl, rfl, ?_, ?_, ?_⟩
  · show fs ∉ rewind_completed s.completed_steps s.error_step ++
      ["agent_failure_recovery"]
    rw [hrw]
    simp only [List.mem_append, List.mem_singleton, not_or]
    constructor
    · intro hmem'
      have := List.count_erase_self fs s.completed_steps
      rw [hcount] at this
      exact absurd this (by
        have := List.count_pos_iff.mpr hmem'
        omega)
    · exact hfsrec
  · show dictGet (dictSet (archive_failed_result s.step_results s.error_step)
      "agent_failure_recovery" _) fs = none
    rw [harch, dictGet_dictSet_ne _ _ hfsrec,
      dictGet_dictSet_ne _ _ (fun h => append_failed_ne_self fs h.symm)]
    exact dictGet_dictPop_self hnodup
  · show dictGet (dictSet (archive_failed_result s.step_results s.error_step)
      "agent_failure_recovery" _) (fs ++ "_failed") = some v
    rw [harch, dictGet_dictSet_ne _ _ (append_failed_ne_recovery fs)]
    exact dictGet_dictSet_self _ _ _

/-- A concrete recovery scenario: content_analyzer failed on
text_analyzer, a backup with the text_analysis capability is registered,
no reroute has happened yet. -/
def failureRegistry : List (String × List String) :=
  [("text_analysis", ["text_analyzer", "backup_text_analyzer"])]

/-- Worker table of the orchestrator for the concrete scenario. -/
def failureWorkers : List (String × String) :=
  [("text_analyzer", "primary_text_impl"),
   ("backup_text_analyzer", "backup_text_impl")]

/-- Workflow state of the concrete recovery scenario. -/
def failedWState : WState :=
  { initialWState with
    error_occurred := true
    error_step := some "content_analyzer"
    failed_agent_id := some "text_analyzer"
    required_capability := some "text_analysis"
    completed_steps := ["supervisor", "content_analyzer"]
    step_results := [("supervisor", .payload 0), ("content_analyzer", .payload 1)] }

/-- Witness for C3: the recovery theorem applied to the concrete
scenario of spec scenario test 4. -/
theorem recovery_substitutes_backup_and_rewinds_step_witness :
    dictGet (agent_failure_recovery_node failureRegistry failureWorkers
      failedWState).1 "text_analyzer" = some "backup_text_impl"
    ∧ (agent_failure_recovery_node failureRegistry failureWorkers
        failedWState).2.reroute_count = failedWState.reroute_count + 1
    ∧ (agent_failure_recovery_node failureRegistry failureWorkers
        failedWState).2.error_occurred = false
    ∧ (agent_failure_recovery_node failureRegistry failureWorkers
        failedWState).2.backup_agent_used = true
    ∧ "content_analyzer" ∉ (agent_failure_recovery_node failureRegistry
        failureWorkers failedWState).2.completed_steps
    ∧ dictGet (agent_failure_recovery_node failureRegistry failureWorkers
        failedWState).2.step_results "content_analyzer" = none
    ∧ dictGet (agent_failure_recovery_node failureRegistry failureWorkers
        failedWState).2.step_results ("content_analyzer" ++ "_failed") =
        some (.payload 1) :=
  recovery_substitutes_backup_and_rewinds_step failureRegistry failureWorkers
    failedWState "content_analyzer" "text_analyzer" "backup_text_analyzer"
    "backup_text_impl" (.payload 1) (by decide) (by decide) (by decide)
    (by decide) (by decide) (by decide) (by decide) (by decide) (by decide)
    (by decide) (by decide)

/-- C4: once reroute_count has reached max_reroutes, error-based routing
goes to error_handler, the recovery node refuses to act (leaving
reroute_count unchanged, stamping status failed and backup_agent_used
false), recovery preserves the bound reroute_count ≤ max_reroutes in
every state, and the error-handler/finalizer chain ends the workflow in
terminal status failed. -/
theorem reroute_bound_enforced (registry : List (String × List String))
    (workers : List (String × String)) (s : WState)
    (h : s.max_reroutes ≤ s.reroute_count) :
    route_by_error_status s = "error_handler"
    ∧ (agent_failure_recovery_node registry workers s).2.status = "failed"
    ∧ (agent_failure_recovery_node registry workers s).2.backup_agent_used = false
    ∧ (agent_failure_recovery_node registry workers s).2.error_occurred = true
    ∧ (agent_failure_recovery_node registry workers s).2.reroute_count =
        s.reroute_count
    ∧ (agent_failure_recovery_node registry workers s).1 = workers
    ∧ (∀ s' : WState, s'.reroute_count ≤ s'.max_reroutes →
        (agent_failure_recovery_node registry workers s').2.reroute_count ≤
          (agent_failure_recovery_node registry workers s').2.max_reroutes)
    ∧ (workflow_finalizer_node (error_handler_node s)).status = "failed" := by
  have hdec : decide (s.reroute_count < s.max_reroutes) = false :=
    decide_eq_false (Nat.not_lt.mpr h)
  have hnode : agent_failure_recovery_node registry workers s =
      (workers, recoveryFail { s with current_step := "agent_failure_recovery" }) := by
    unfold agent_failure_recovery_node
    rw [if_pos h]
  refine ⟨?_, ?_, ?_, ?_, ?_, ?_, ?_, ?_⟩
  · simp [route_by_error_status, hdec]
  · rw [hnode]; rfl
  · rw [hnode]; rfl
  · rw [hnode]; rfl
  · rw [hnode]; rfl
  · rw [hnode]
  · intro s' hs'
    unfold agent_failure_recovery_node
    by_cases hm : s'.max_reroutes ≤ s'.reroute_count
    · rw [if_pos hm]
      exact hs'
    · rw [if_neg hm]
      have hm' : s'.reroute_count < s'.max_reroutes := Nat.not_le.mp hm
      split
      · split
        · split
          · show s'.reroute_count + 1 ≤ s'.max_reroutes
            omega
          · exact hs'
          · exact hs'
        · exact hs'
      · exact hs'
  · unfold error_handler_node workflow_finalizer_node
    simp

/-- Exhausted-budget workflow state: reroute_count has reached
max_reroutes with a failed step pending (spec scenario test 5). -/
def exhaustedWState : WState :=
  { failedWState with reroute_count := 3 }

/-- Witness for C4: the bound theorem applied to the exhausted state. -/
theorem reroute_bound_enforced_witness :
    route_by_error_status exhaustedWState = "error_handler"
    ∧ (agent_failure_recovery_node failureRegistry failureWorkers
        exhaustedWState).2.status = "failed"
    ∧ (agent_failure_recovery_node failureRegistry failureWorkers
        exhaustedWState).2.backup_agent_used = false
    ∧ (agent_failure_recovery_node failureRegistry failureWorkers
        exhaustedWState).2.error_occurred = true
    ∧ (agent_failure_recovery_node failureRegistry failureWorkers
        exhaustedWState).2.reroute_count = exhaustedWState.reroute_count
    ∧ (agent_failure_recovery_node failureRegistry failureWorkers
        exhaustedWState).1 = failureWorkers
    ∧ (∀ s' : WState, s'.reroute_count ≤ s'.max_reroutes →
        (agent_failure_recovery_node failureRegistry failureWorkers
          s').2.reroute_count ≤
          (agent_failure_recovery_node failureRegistry failureWorkers
            s').2.max_reroutes)
    ∧ (workflow_finalizer_node (error_handler_node exhaustedWState)).status =
        "failed" :=
  reroute_bound_enforced failureRegistry failureWorkers exhaustedWState (by decide)

-- P2P messaging substrate (src/src/p2p_communication.py).

/-- MessageType (p2p_communication.py, lines 18-27). -/
inductive MessageType where
  | request | response | broadcast | delegation
  | report | collaboration | error | status_update
  deriving DecidableEq, Repr

/-- MessagePriority (p2p_communication.py, lines 30-35). -/
inductive MessagePriority where
  | low | normal | high | urgent
  deriving DecidableEq, Repr

/-- AgentMessage (p2p_communication.py, lines 38-76).  uuid4 message ids
and utcnow timestamps are embedded as naturals drawn from a monotone
counter; content and attachments payloads as string association lists.
Field defaults mirror the pydantic defaults. -/
structure AgentMessage where
  message_id : Nat
  conversation_id : Option Nat := none
  sender_id : String
  recipient_id : String
  reply_to : Option Nat := none
  message_type : MessageType
  priority : MessagePriority := .normal
  timestamp : Nat
  expires_at : Option Nat := none
  subject : String
  content : List (String × String) := []
  attachments : List (String × String) := []
  requires_response : Bool := false
  expected_response_time : Option Nat := none
  processed : Bool := false
  response_sent : Bool := false
  deriving DecidableEq, Repr

/-- MessageQueue (p2p_communication.py, lines 103-150): per-agent inbox,
outbox and processed-id list (a Python list, not a set). -/
structure MessageQueue where
  agent_id : String
  inbox : List AgentMessage := []
  outbox : List AgentMessage := []
  processed_messages : List Nat := []
  deriving DecidableEq, Repr

/-- MessageQueue.add_incoming_message (lines 115-119): deliver unless the
id was already processed. -/
def MessageQueue.add_incoming_message (q : MessageQueue) (m : AgentMessage) :
    MessageQueue :=
  if q.processed_messages.contains m.message_id then q
  else { q with inbox := q.inbox ++ [m] }

/-- MessageQueue.add_outgoing_message (lines 121-124). -/
def MessageQueue.add_outgoing_message (q : MessageQueue) (m : AgentMessage) :
    MessageQueue :=
  { q with outbox := q.outbox ++ [m] }

/-- The priority_order map of get_unprocessed_messages (lines 134-139). -/
def priority_order : MessagePriority → Nat
  | .urgent => 0
  | .high => 1
  | .normal => 2
  | .low => 3

/-- The sort key relation of get_unprocessed_messages (line 141): by
priority rank, then by timestamp. -/
def msgLE (m1 m2 : AgentMessage) : Prop :=
  priority_order m1.priority < priority_order m2.priority ∨
    (priority_order m1.priority = priority_order m2.priority ∧
      m1.timestamp ≤ m2.timestamp)

instance : DecidableRel msgLE := fun m1 m2 => by
  unfold msgLE
  infer_instance

instance : IsTotal AgentMessage msgLE :=
  ⟨fun a b => by unfold msgLE; omega⟩

instance : IsTrans AgentMessage msgLE :=
  ⟨fun a b c h1 h2 => by unfold msgLE at h1 h2 ⊢; omega⟩

/-- The pre-sort pool of get_unprocessed_messages (lines 128-131):
unprocessed inbox messages, then the optional type filter. -/
def unprocessed_pool (q : MessageQueue) : Option MessageType → List AgentMessage
  | some mtype =>
      (q.inbox.filter (fun m => !m.processed)).filter
        (fun m => m.message_type == mtype)
  | none => q.inbox.filter (fun m => !m.processed)

/-- MessageQueue.get_unprocessed_messages (lines 126-142): filter, then a
stable sort by (priority rank, timestamp); the inbox itself is not
mutated (the Python method sorts a fresh list). -/
def MessageQueue.get_unprocessed_messages (q : MessageQueue)
    (mt : Option MessageType) : List AgentMessage :=
  (unprocessed_pool q mt).insertionSort msgLE

/-- The loop body of MessageQueue.mark_processed (lines 144-150): walk
the inbox, flag the FIRST message with the given id and report whether
one was found (the Python loop breaks after the first match and appends
the id unconditionally on a match). -/
def markProcessedInbox : List AgentMessage → Nat → List AgentMessage × Bool
  | [], _ => ([], false)
  | m :: rest, mid =>
    if m.message_id == mid then ({ m with processed := true } :: rest, true)
    else
      let out := markProcessedInbox rest mid
      (m :: out.1, out.2)

/-- MessageQueue.mark_processed (lines 144-150). -/
def MessageQueue.mark_processed (q : MessageQueue) (mid : Nat) : MessageQueue :=
  let out := markProcessedInbox q.inbox mid
  { q with
    inbox := out.1,
    processed_messages :=
      if out.2 then q.processed_messages ++ [mid] else q.processed_messages }

/-- A concrete direct message with id 1 from A to B. -/
def msgOne : AgentMessage :=
  { message_id := 1, sender_id := "A", recipient_id := "B",
    message_type := .request, timestamp := 0, subject := "s" }

/-- B's mailbox holding exactly msgOne. -/
def queueB : MessageQueue :=
  { agent_id := "B", inbox := [msgOne] }

/-- C7 counterexample: a mailbox holding one message with id 1; calling
mark_processed twice with id 1 appends the id twice — the processed-id
collection is a list and does get a duplicate, contrary to the claim
that it behaves as a set. -/
theorem mark_processed_twice_duplicates_id :
    ((queueB.mark_processed 1).mark_processed 1).processed_messages = [1, 1]
    ∧ ((queueB.mark_processed 1).mark_processed 1).processed_messages.count 1 =
      2 := by
  decide

theorem markProcessedInbox_twice (l : List AgentMessage) (mid : Nat) :
    markProcessedInbox (markProcessedInbox l mid).1 mid =
      ((markProcessedInbox l mid).1, (markProcessedInbox l mid).2) := by
  induction l with
  | nil => rfl
  | cons m rest ih =>
    by_cases h : m.message_id == mid
    · simp [markProcessedInbox, h]
    · simp [markProcessedInbox, h, ih]

theorem markProcessedInbox_found (l : List AgentMessage) (mid : Nat) :
    (markProcessedInbox l mid).2 = l.any (fun m => m.message_id == mid) := by
  induction l with
  | nil => rfl
  | cons m rest ih =>
    by_cases h : m.message_id == mid
    · simp [markProcessedInbox, h]
    · simp [markProcessedInbox, h, ih]

theorem markProcessedInbox_marks {l : List AgentMessage} {mid : Nat}
    (hone : (l.filter (fun m => m.message_id == mid)).length ≤ 1) :
    ∀ m ∈ (markProcessedInbox l mid).1, m.message_id = mid →
      m.processed = true := by
  induction l with
  | nil => simp [markProcessedInbox]
  | cons x rest ih =>
    rw [List.filter_cons] at hone
    by_cases h : x.message_id == mid
    · simp only [h, if_true, List.length_cons] at hone
      have hrest : rest.filter (fun m => m.message_id == mid) = [] :=
        List.length_eq_zero.mp (by omega)
      intro m hm hid
      simp only [markProcessedInbox, h, if_true] at hm
      rcases List.mem_cons.mp hm with rfl | hm'
      · rfl
      · exfalso
        have hmem : m ∈ rest.filter (fun m => m.message_id == mid) :=
          List.mem_filter.mpr ⟨hm', by simp [hid]⟩
        rw [hrest] at hmem
        cases hmem
    · simp only [h, Bool.false_eq_true, if_false] at hone
      intro m hm hid
      simp only [markProcessedInbox, h, Bool.false_eq_true, if_false] at hm
      rcases List.mem_cons.mp hm with rfl | hm'
      · exact absurd hid (by simpa using h)
      · exact ih hone m hm' hid

/-- C7 amended: a second mark_processed call with the same id appends the
id to the processed list a second time (the collection is a list, not a
set), but the visible views are idempotent: the inbox after two calls
equals the inbox after one, the marked message is excluded from every
subsequent unprocessed read, and redelivery of the same id is a no-op. -/
theorem mark_processed_idempotent_views (q : MessageQueue) (mid : Nat)
    (hone : (q.inbox.filter (fun m => m.message_id == mid)).length ≤ 1)
    (hexists : ∃ m ∈ q.inbox, m.message_id = mid) :
    ((q.mark_processed mid).mark_processed mid).inbox =
      (q.mark_processed mid).inbox
    ∧ (∀ m ∈ (q.mark_processed mid).get_unprocessed_messages none,
        m.message_id ≠ mid)
    ∧ (∀ m : AgentMessage, m.message_id = mid →
        (q.mark_processed mid).add_incoming_message m = q.mark_processed mid)
    ∧ ((q.mark_processed mid).mark_processed mid).processed_messages =
        q.processed_messages ++ [mid] ++ [mid] := by
  obtain ⟨m0, hm0, hid0⟩ := hexists
  have hfound : (markProcessedInbox q.inbox mid).2 = true := by
    rw [markProcessedInbox_found]
    exact List.any_eq_true.mpr ⟨m0, hm0, by simp [hid0]⟩
  have htwice := markProcessedInbox_twice q.inbox mid
  refine ⟨?_, ?_, ?_, ?_⟩
  · show (markProcessedInbox (markProcessedInbox q.inbox mid).1 mid).1 = _
    rw [htwice]
    rfl
  · intro m hm
    have hperm : ((q.mark_processed mid).get_unprocessed_messages none).Perm
        (unprocessed_pool (q.mark_processed mid) none) :=
      List.perm_insertionSort _ _
    have hm' : m ∈ unprocessed_pool (q.mark_processed mid) none :=
      hperm.mem_iff.mp hm
    have hm'' := List.mem_filter.mp hm'
    intro hid
    have hmarked := markProcessedInbox_marks hone m hm''.1 hid
    rw [hmarked] at hm''
    simp at hm''
  · intro m hid
    unfold MessageQueue.add_incoming_message
    have hmem : (q.mark_processed mid).processed_messages.contains m.message_id
        = true := by
      show ((if (markProcessedInbox q.inbox mid).2 then
        q.processed_messages ++ [mid] else q.processed_messages).contains
          m.message_id) = true
      rw [hfound, if_pos rfl]
      simp [hid]
    rw [hmem]
    simp
  · show (if (markProcessedInbox (markProcessedInbox q.inbox mid).1 mid).2 then
        (q.mark_processed mid).processed_messages ++ [mid]
      else (q.mark_processed mid).processed_messages) = _
    rw [htwice]
    simp only [hfound, if_true]
    show (if (markProcessedInbox q.inbox mid).2 then
        q.processed_messages ++ [mid] else q.processed_messages) ++ [mid] = _
    rw [hfound, if_pos rfl]

/-- Witness for C7: the amended theorem applied to the one-message
mailbox of the counterexample. -/
theorem mark_processed_idempotent_views_witness :
    ((queueB.mark_processed 1).mark_processed 1).inbox =
      (queueB.mark_processed 1).inbox
    ∧ (∀ m ∈ (queueB.mark_processed 1).get_unprocessed_messages none,
        m.message_id ≠ 1)
    ∧ (∀ m : AgentMessage, m.message_id = 1 →
        (queueB.mark_processed 1).add_incoming_message m =
          queueB.mark_processed 1)
    ∧ ((queueB.mark_processed 1).mark_processed 1).processed_messages =
        queueB.processed_messages ++ [1] ++ [1] :=
  mark_processed_idempotent_views queueB 1 (by decide)
    ⟨msgOne, by decide, rfl⟩

/-- C9: the inbox read returns exactly the unprocessed messages matching
the optional type filter (as a permutation of the filtered inbox, so
nothing is added or dropped), sorted by priority rank urgent < high <
normal < low and, within equal rank, by timestamp ascending; the rank
map orders the four priorities strictly and two priorities with the same
rank are equal.  The read itself is a pure function of the mailbox — the
Python method sorts a fresh list and never mutates the inbox or flags. -/
theorem inbox_read_sorted_exact (q : MessageQueue) (mt : Option MessageType) :
    (q.get_unprocessed_messages mt).Perm (unprocessed_pool q mt)
    ∧ List.Sorted msgLE (q.get_unprocessed_messages mt)
    ∧ unprocessed_pool q none = q.inbox.filter (fun m => !m.processed)
    ∧ (∀ mtype : MessageType, unprocessed_pool q (some mtype) =
        (q.inbox.filter (fun m => !m.processed)).filter
          (fun m => m.message_type == mtype))
    ∧ priority_order .urgent < priority_order .high
    ∧ priority_order .high < priority_order .normal
    ∧ priority_order .normal < priority_order .low
    ∧ (∀ p1 p2 : MessagePriority, priority_order p1 = priority_order p2 →
        p1 = p2) := by
  refine ⟨List.perm_insertionSort _ _, List.sorted_insertionSort _ _,
    rfl, fun _ => rfl, by decide, by decide, by decide, ?_⟩
  intro p1 p2 h
  cases p1 <;> cases p2 <;> simp_all [priority_order]

-- P2PCommunicationManager (p2p_communication.py, lines 153-294).
-- uuid4 and utcnow are embedded as a monotone counter next_uuid carried
-- in the manager state; conversation-thread keys are message ids (Nat).

/-- In-place update of the first binding of a key (mutation of the queue
object returned by a dict lookup). -/
def dictUpdate {v : Type} : List (String × v) → String → (v → v) → List (String × v)
  | [], _, _ => []
  | p :: d, k, f => if p.1 == k then (p.1, f p.2) :: d else p :: dictUpdate d k f

theorem keys_dictUpdate {v : Type} (d : List (String × v)) (k : String)
    (f : v → v) : (dictUpdate d k f).map Prod.fst = d.map Prod.fst := by
  induction d with
  | nil => rfl
  | cons p d ih =>
    by_cases h : p.1 == k
    · simp [dictUpdate, h]
    · simp [dictUpdate, h, ih]

theorem dictGet_dictUpdate_self {v : Type} (d : List (String × v)) (k : String)
    (f : v → v) : dictGet (dictUpdate d k f) k = (dictGet d k).map f := by
  induction d with
  | nil => rfl
  | cons p d ih =>
    by_cases h : p.1 == k
    · simp [dictUpdate, h, dictGet]
    · simp [dictUpdate, h, dictGet, ih]

theorem dictGet_dictUpdate_ne {v : Type} (d : List (String × v)) {k k' : String}
    (f : v → v) (h : k' ≠ k) :
    dictGet (dictUpdate d k f) k' = dictGet d k' := by
  induction d with
  | nil => rfl
  | cons p d ih =>
    by_cases hp : p.1 == k
    · have hpk : p.1 = k := by simpa using hp
      have hp' : (p.1 == k') = false :=
        beq_eq_false_iff_ne.mpr (fun he => h (hpk ▸ he).symm)
      simp [dictUpdate, hp, dictGet, hp']
    · by_cases hp' : p.1 == k'
      · simp [dictUpdate, hp, dictGet, hp']
      · simp [dictUpdate, hp, dictGet, hp', ih]

theorem dictGet_isSome_of_mem {v : Type} {d : List (String × v)} {k : String}
    (h : k ∈ d.map Prod.fst) : (dictGet d k).isSome = true := by
  induction d with
  | nil => cases h
  | cons p d ih =>
    rcases List.mem_cons.mp h with he | hm
    · simp [dictGet, he.symm]
    · by_cases hp : p.1 == k
      · simp [dictGet, hp]
      · simp [dictGet, hp, ih hm]

theorem mem_of_dictGet_isSome {v : Type} {d : List (String × v)} {k : String}
    (h : (dictGet d k).isSome = true) : k ∈ d.map Prod.fst := by
  induction d with
  | nil => simp [dictGet] at h
  | cons p d ih =>
    by_cases hp : p.1 == k
    · have : p.1 = k := by simpa using hp
      simp [this]
    · simp only [dictGet, hp, Bool.false_eq_true, if_false] at h
      simp [ih h]

theorem dictGet_eq_some_mem {v : Type} {d : List (String × v)} {k : String}
    {x : v} (h : dictGet d k = some x) : (k, x) ∈ d := by
  induction d with
  | nil => cases h
  | cons p d ih =>
    by_cases hp : p.1 == k
    · have hpk : p.1 = k := by simpa using hp
      simp only [dictGet, hp, if_true, Option.some.injEq] at h
      exact List.mem_cons.mpr (Or.inl (by rw [← hpk, ← h]))
    · simp only [dictGet, hp, Bool.false_eq_true, if_false] at h
      exact List.mem_cons_of_mem _ (ih h)

theorem dictGet_append_single {v : Type} (d : List (String × v)) (k x : String)
    (val : v) :
    dictGet (d ++ [(k, val)]) x =
      match dictGet d x with
      | some q => some q
      | none => if k == x then some val else none := by
  induction d with
  | nil => rfl
  | cons p d ih =>
    by_cases hp : p.1 == x
    · simp [dictGet, hp]
    · simp [dictGet, hp, ih]

/-- Manager state of P2PCommunicationManager (lines 161-167). -/
structure P2PState where
  agent_queues : List (String × MessageQueue) := []
  message_history : List AgentMessage := []
  conversation_threads : List (Nat × List Nat) := []
  next_uuid : Nat := 0
  deriving DecidableEq, Repr

/-- P2PCommunicationManager.register_agent (lines 169-173): idempotent,
creates an empty mailbox if absent. -/
def P2PState.register_agent (st : P2PState) (aid : String) : P2PState :=
  if (dictGet st.agent_queues aid).isSome then st
  else { st with agent_queues := st.agent_queues ++ [(aid, { agent_id := aid })] }

/-- In-place mutation of one agent's mailbox. -/
def updateQueue (st : P2PState) (aid : String) (f : MessageQueue → MessageQueue) :
    P2PState :=
  { st with agent_queues := dictUpdate st.agent_queues aid f }

/-- Conversation-thread update of send_message (lines 207-211): create
the thread list if absent, then append the message id. -/
def threads_append : List (Nat × List Nat) → Nat → Nat → List (Nat × List Nat)
  | [], cid, mid => [(cid, [mid])]
  | p :: rest, cid, mid =>
    if p.1 == cid then (p.1, p.2 ++ [mid]) :: rest
    else p :: threads_append rest cid mid

/-- The inbox of an agent as stored in the manager state. -/
def inboxOf (st : P2PState) (aid : String) : List AgentMessage :=
  match dictGet st.agent_queues aid with
  | some q => q.inbox
  | none => []

/-- The processed-id list of an agent as stored in the manager state. -/
def processedOf (st : P2PState) (aid : String) : List Nat :=
  match dictGet st.agent_queues aid with
  | some q => q.processed_messages
  | none => []

/-- All processed ids across all mailboxes. -/
def allProcessed (st : P2PState) : List Nat :=
  (st.agent_queues.map (fun p => p.2.processed_messages)).flatten

/-- P2PCommunicationManager.send_message, non-broadcast path (lines
193-214): register the recipient, outbox append at the sender, guarded
inbox append at the recipient, history append, thread index append. -/
def deliver_direct (st : P2PState) (m : AgentMessage) : P2PState :=
  let st1 := st.register_agent m.recipient_id
  let st2 := updateQueue st1 m.sender_id (fun q => q.add_outgoing_message m)
  let st3 := updateQueue st2 m.recipient_id (fun q => q.add_incoming_message m)
  { st3 with
    message_history := st3.message_history ++ [m],
    conversation_threads :=
      threads_append st3.conversation_threads
        (m.conversation_id.getD m.message_id) m.message_id }

theorem register_agent_of_mem {st : P2PState} {aid : String}
    (h : aid ∈ st.agent_queues.map Prod.fst) : st.register_agent aid = st := by
  unfold P2PState.register_agent
  rw [if_pos (dictGet_isSome_of_mem h)]

theorem processed_map_dictUpdate (d : List (String × MessageQueue)) (k : String)
    (f : MessageQueue → MessageQueue)
    (hf : ∀ q, (f q).processed_messages = q.processed_messages) :
    (dictUpdate d k f).map (fun p => p.2.processed_messages) =
      d.map (fun p => p.2.processed_messages) := by
  induction d with
  | nil => rfl
  | cons p d ih =>
    by_cases h : p.1 == k
    · simp [dictUpdate, h, hf]
    · simp [dictUpdate, h, ih]

theorem mem_allProcessed_of_processedOf {st : P2PState} {aid : String} {mid : Nat}
    (h : mid ∈ processedOf st aid) : mid ∈ allProcessed st := by
  unfold processedOf at h
  cases hq : dictGet st.agent_queues aid with
  | none => rw [hq] at h; cases h
  | some q =>
    rw [hq] at h
    have hmem := dictGet_eq_some_mem hq
    exact List.mem_flatten.mpr ⟨q.processed_messages,
      List.mem_map.mpr ⟨(aid, q), hmem, rfl⟩, h⟩

theorem deliver_direct_spec (st : P2PState) (m : AgentMessage)
    (hrec : m.recipient_id ∈ st.agent_queues.map Prod.fst)
    (hfresh : m.message_id ∉ processedOf st m.recipient_id) :
    (deliver_direct st m).message_history = st.message_history ++ [m]
    ∧ (deliver_direct st m).next_uuid = st.next_uuid
    ∧ (deliver_direct st m).agent_queues.map Prod.fst =
        st.agent_queues.map Prod.fst
    ∧ (∀ x, inboxOf (deliver_direct st m) x =
        inboxOf st x ++ (if m.recipient_id = x then [m] else []))
    ∧ allProcessed (deliver_direct st m) = allProcessed st := by
  unfold deliver_direct
  rw [register_agent_of_mem hrec]
  have houtbox : ∀ y, (match dictGet (dictUpdate st.agent_queues m.sender_id
      (fun q => q.add_outgoing_message m)) y with
      | some q => q.inbox
      | none => []) = inboxOf st y := by
    intro y
    by_cases hy : y = m.sender_id
    · subst hy
      rw [dictGet_dictUpdate_self]
      unfold inboxOf
      cases dictGet st.agent_queues m.sender_id with
      | none => rfl
      | some q => rfl
    · rw [dictGet_dictUpdate_ne _ _ hy]
      rfl
  refine ⟨rfl, rfl, ?_, ?_, ?_⟩
  · show (dictUpdate (dictUpdate st.agent_queues m.sender_id _)
        m.recipient_id _).map Prod.fst = _
    rw [keys_dictUpdate, keys_dictUpdate]
  · intro x
    show (match dictGet (dictUpdate (dictUpdate st.agent_queues m.sender_id _)
        m.recipient_id _) x with
      | some q => q.inbox
      | none => []) = _
    by_cases hx : m.recipient_id = x
    · subst hx
      rw [dictGet_dictUpdate_self]
      cases hq : dictGet (dictUpdate st.agent_queues m.sender_id
          (fun q => q.add_outgoing_message m)) m.recipient_id with
      | none =>
        exfalso
        have hmem : m.recipient_id ∈ (dictUpdate st.agent_queues m.sender_id
            (fun q => q.add_outgoing_message m)).map Prod.fst := by
          rw [keys_dictUpdate]
          exact hrec
        have hsome := dictGet_isSome_of_mem hmem
        rw [hq] at hsome
        cases hsome
      | some q =>
        have hqin : q.inbox = inboxOf st m.recipient_id := by
          have hb := houtbox m.recipient_id
          rw [hq] at hb
          exact hb
        have hqproc : q.processed_messages = processedOf st m.recipient_id := by
          by_cases hy : m.recipient_id = m.sender_id
          · rw [hy, dictGet_dictUpdate_self] at hq
            unfold processedOf
            rw [hy]
            cases hg : dictGet st.agent_queues m.sender_id with
            | none => rw [hg] at hq; cases hq
            | some q0 =>
              rw [hg] at hq
              have hq' : q0.add_outgoing_message m = q := by simpa using hq
              rw [← hq']
              rfl
          · rw [dictGet_dictUpdate_ne _ _ hy] at hq
            unfold processedOf
            rw [hq]
        have hcont : q.processed_messages.contains m.message_id = false := by
          rw [hqproc]
          simpa [List.contains, List.elem_eq_mem] using hfresh
        show ((q.add_incoming_message m).inbox) = _
        unfold MessageQueue.add_incoming_message
        rw [hcont]
        simp [hqin]
    · rw [dictGet_dictUpdate_ne _ _ (fun he => hx he.symm)]
      rw [houtbox x]
      simp [hx]
  · show ((dictUpdate (dictUpdate st.agent_queues m.sender_id _)
        m.recipient_id _).map (fun p => p.2.processed_messages)).flatten = _
    rw [processed_map_dictUpdate _ m.recipient_id
        (fun q => q.add_incoming_message m) (fun q => by
          simp only [MessageQueue.add_incoming_message]
          split <;> rfl),
      processed_map_dictUpdate st.agent_queues m.sender_id
        (fun q => q.add_outgoing_message m) (fun q => rfl)]
    rfl

/-- Well-formed manager state: agent keys are unique (a Python dict),
no agent is registered under the broadcast sentinel (such a registration
would make the source recurse unboundedly on delivery), and every
processed id and history id was produced by an earlier uuid draw. -/
def WF (st : P2PState) : Prop :=
  (st.agent_queues.map Prod.fst).Nodup
  ∧ "broadcast" ∉ st.agent_queues.map Prod.fst
  ∧ (∀ mid ∈ allProcessed st, mid < st.next_uuid)
  ∧ (∀ m ∈ st.message_history, m.message_id < st.next_uuid)

theorem next_uuid_register (st : P2PState) (aid : String) :
    (st.register_agent aid).next_uuid = st.next_uuid := by
  unfold P2PState.register_agent
  split <;> rfl

theorem history_register (st : P2PState) (aid : String) :
    (st.register_agent aid).message_history = st.message_history := by
  unfold P2PState.register_agent
  split <;> rfl

theorem allProcessed_register (st : P2PState) (aid : String) :
    allProcessed (st.register_agent aid) = allProcessed st := by
  unfold P2PState.register_agent
  split
  · rfl
  · unfold allProcessed
    rw [List.map_append, List.flatten_append]
    simp

theorem inboxOf_register (st : P2PState) (aid x : String) :
    inboxOf (st.register_agent aid) x = inboxOf st x := by
  unfold P2PState.register_agent
  by_cases h : (dictGet st.agent_queues aid).isSome = true
  · rw [if_pos h]
  · rw [if_neg h]
    unfold inboxOf
    show (match dictGet (st.agent_queues ++ [(aid, { agent_id := aid })]) x with
      | some q => q.inbox
      | none => []) = _
    rw [dictGet_append_single]
    cases dictGet st.agent_queues x with
    | some q => rfl
    | none =>
      by_cases hax : aid == x
      · simp [hax]
      · simp [hax]

theorem mem_keys_register_self (st : P2PState) (aid : String) :
    aid ∈ (st.register_agent aid).agent_queues.map Prod.fst := by
  unfold P2PState.register_agent
  by_cases h : (dictGet st.agent_queues aid).isSome = true
  · rw [if_pos h]
    exact mem_of_dictGet_isSome h
  · rw [if_neg h]
    simp

theorem mem_keys_register_of_mem {st : P2PState} {x : String} (aid : String)
    (h : x ∈ st.agent_queues.map Prod.fst) :
    x ∈ (st.register_agent aid).agent_queues.map Prod.fst := by
  unfold P2PState.register_agent
  split
  · exact h
  · rw [List.map_append]
    exact List.mem_append_left _ h

theorem WF_register {st : P2PState} {aid : String} (hWF : WF st)
    (hne : aid ≠ "broadcast") : WF (st.register_agent aid) := by
  obtain ⟨h1, h2, h3, h4⟩ := hWF
  refine ⟨?_, ?_, ?_, ?_⟩
  · unfold P2PState.register_agent
    by_cases h : (dictGet st.agent_queues aid).isSome = true
    · rw [if_pos h]; exact h1
    · rw [if_neg h]
      have hnm : aid ∉ st.agent_queues.map Prod.fst :=
        fun hm => h (dictGet_isSome_of_mem hm)
      show ((st.agent_queues ++ [(aid, _)]).map Prod.fst).Nodup
      rw [List.map_append]
      refine List.Nodup.append h1 (by simp) ?_
      intro x hx hy
      simp only [List.map_cons, List.map_nil, List.mem_singleton] at hy
      subst hy
      exact hnm hx
  · unfold P2PState.register_agent
    by_cases h : (dictGet st.agent_queues aid).isSome = true
    · rw [if_pos h]; exact h2
    · rw [if_neg h]
      show "broadcast" ∉ (st.agent_queues ++ [(aid, _)]).map Prod.fst
      rw [List.map_append]
      intro hmem
      rcases List.mem_append.mp hmem with hm | hm
      · exact h2 hm
      · simp only [List.map_cons, List.map_nil, List.mem_singleton] at hm
        exact hne hm.symm
  · intro mid hmid
    rw [allProcessed_register] at hmid
    rw [next_uuid_register]
    exact h3 mid hmid
  · intro m hm
    rw [history_register] at hm
    rw [next_uuid_register]
    exact h4 m hm

/-- The per-recipient copy built in _broadcast_message (lines 227-235):
only sender, type, priority, subject, content and conversation id are
propagated; every other field takes its constructor default, and the
fresh uuid and timestamp come from the counter. -/
def mkCopy (m : AgentMessage) (aid : String) (n : Nat) : AgentMessage :=
  { message_id := n, conversation_id := m.conversation_id,
    sender_id := m.sender_id, recipient_id := aid,
    message_type := m.message_type, priority := m.priority,
    timestamp := n, subject := m.subject, content := m.content }

/-- The copies produced by one broadcast loop over the recipient list,
with successive fresh ids from n. -/
def mkCopies (m : AgentMessage) : List String → Nat → List AgentMessage
  | [], _ => []
  | a :: rest, n => mkCopy m a n :: mkCopies m rest (n + 1)

/-- One iteration of the _broadcast_message loop (lines 224-238):
construct the per-recipient copy (drawing a fresh uuid) and send it
through the non-broadcast path of send_message. -/
def broadcast_step (m : AgentMessage) (aid : String) (st : P2PState) : P2PState :=
  deliver_direct
    (({ st with next_uuid := st.next_uuid + 1 } : P2PState).register_agent
      (mkCopy m aid st.next_uuid).sender_id)
    (mkCopy m aid st.next_uuid)

/-- P2PCommunicationManager._broadcast_message (lines 220-241): loop over
the registered agents other than the sender, delivering one fresh copy
to each, counting successful sends. -/
def broadcast_go (m : AgentMessage) : List String → P2PState → P2PState × Nat
  | [], st => (st, 0)
  | aid :: rest, st =>
    let out := broadcast_go m rest (broadcast_step m aid st)
    (out.1, out.2 + 1)

/-- The recipient set of a broadcast: all registered agents except the
sender, in registration order (the loop over agent_queues.keys()). -/
def broadcast_recipients (st : P2PState) (m : AgentMessage) : List String :=
  (st.agent_queues.map Prod.fst).filter (fun a => !(a == m.sender_id))

/-- P2PCommunicationManager.send_message (lines 175-218): register the
sender, fan out if the recipient is the broadcast sentinel (reporting
true iff at least one copy was delivered), else deliver directly and
report true. -/
def send_message (st : P2PState) (m : AgentMessage) : P2PState × Bool :=
  let st1 := st.register_agent m.sender_id
  if m.recipient_id == "broadcast" then
    let out := broadcast_go m (broadcast_recipients st1 m) st1
    (out.1, decide (0 < out.2))
  else
    (deliver_direct st1 m, true)

theorem mkCopies_map_recipient (m : AgentMessage) (as : List String) (n : Nat) :
    (mkCopies m as n).map (fun c => c.recipient_id) = as := by
  induction as generalizing n with
  | nil => rfl
  | cons a rest ih => simp [mkCopies, mkCopy, ih]

theorem mkCopies_map_id (m : AgentMessage) (as : List String) (n : Nat) :
    (mkCopies m as n).map (fun c => c.message_id) = List.range' n as.length := by
  induction as generalizing n with
  | nil => rfl
  | cons a rest ih =>
    rw [List.length_cons, List.range'_succ]
    simp [mkCopies, mkCopy, ih]

theorem mkCopies_fields (m : AgentMessage) (as : List String) (n : Nat) :
    ∀ c ∈ mkCopies m as n,
      c.sender_id = m.sender_id ∧ c.message_type = m.message_type
      ∧ c.priority = m.priority ∧ c.subject = m.subject
      ∧ c.content = m.content ∧ c.conversation_id = m.conversation_id
      ∧ c.reply_to = none ∧ c.expires_at = none ∧ c.attachments = []
      ∧ c.requires_response = false ∧ c.expected_response_time = none
      ∧ c.processed = false ∧ c.response_sent = false := by
  induction as generalizing n with
  | nil => intro c hc; cases hc
  | cons a rest ih =>
    intro c hc
    rcases List.mem_cons.mp hc with rfl | hc'
    · exact ⟨rfl, rfl, rfl, rfl, rfl, rfl, rfl, rfl, rfl, rfl, rfl, rfl, rfl⟩
    · exact ih (n + 1) c hc'

theorem mkCopies_filter_recipient_length (m : AgentMessage) (as : List String)
    (n : Nat) (a : String) :
    ((mkCopies m as n).filter (fun c => c.recipient_id == a)).length =
      as.count a := by
  induction as generalizing n with
  | nil => rfl
  | cons a' rest ih =>
    by_cases h : a' == a
    · simp [mkCopies, List.filter_cons, mkCopy, h, ih, List.count_cons]
    · simp [mkCopies, List.filter_cons, mkCopy, h, ih, List.count_cons]

theorem broadcast_go_spec (m : AgentMessage) (as : List String) (st : P2PState)
    (hWF : WF st)
    (hsend : m.sender_id ∈ st.agent_queues.map Prod.fst)
    (has : ∀ a ∈ as, a ∈ st.agent_queues.map Prod.fst)
    (hne : ∀ a ∈ as, a ≠ m.sender_id) :
    (broadcast_go m as st).1.message_history =
      st.message_history ++ mkCopies m as st.next_uuid
    ∧ (broadcast_go m as st).2 = as.length
    ∧ (broadcast_go m as st).1.next_uuid = st.next_uuid + as.length
    ∧ (broadcast_go m as st).1.agent_queues.map Prod.fst =
        st.agent_queues.map Prod.fst
    ∧ (∀ x, inboxOf (broadcast_go m as st).1 x =
        inboxOf st x ++
          (mkCopies m as st.next_uuid).filter (fun c => c.recipient_id == x))
    ∧ WF (broadcast_go m as st).1 := by
  induction as generalizing st with
  | nil =>
    exact ⟨by simp [broadcast_go, mkCopies], rfl, rfl, rfl,
      fun x => by simp [broadcast_go, mkCopies], hWF⟩
  | cons a rest ih =>
    obtain ⟨h1, h2, h3, h4⟩ := hWF
    have ha : a ∈ st.agent_queues.map Prod.fst := has a (List.mem_cons_self _ _)
    have hane : a ≠ m.sender_id := hne a (List.mem_cons_self _ _)
    have hstep : broadcast_step m a st =
        deliver_direct { st with next_uuid := st.next_uuid + 1 }
          (mkCopy m a st.next_uuid) := by
      unfold broadcast_step
      rw [register_agent_of_mem
        (show (mkCopy m a st.next_uuid).sender_id ∈
          ({ st with next_uuid := st.next_uuid + 1 } :
            P2PState).agent_queues.map Prod.fst from hsend)]
    have hfresh : (mkCopy m a st.next_uuid).message_id ∉
        processedOf { st with next_uuid := st.next_uuid + 1 }
          (mkCopy m a st.next_uuid).recipient_id := by
      intro hmem
      have hall : (mkCopy m a st.next_uuid).message_id ∈ allProcessed st :=
        mem_allProcessed_of_processedOf hmem
      have hlt := h3 _ hall
      simp [mkCopy] at hlt
    obtain ⟨d1, d2, d3, d4, d5⟩ :=
      deliver_direct_spec { st with next_uuid := st.next_uuid + 1 }
        (mkCopy m a st.next_uuid)
        (show (mkCopy m a st.next_uuid).recipient_id ∈
          ({ st with next_uuid := st.next_uuid + 1 } :
            P2PState).agent_queues.map Prod.fst from ha) hfresh
    rw [← hstep] at d1 d2 d3 d4 d5
    have hbh : ({ st with next_uuid := st.next_uuid + 1 } :
        P2PState).message_history = st.message_history := rfl
    have hbn : ({ st with next_uuid := st.next_uuid + 1 } :
        P2PState).next_uuid = st.next_uuid + 1 := rfl
    have hbk : ({ st with next_uuid := st.next_uuid + 1 } :
        P2PState).agent_queues = st.agent_queues := rfl
    have hbi : ∀ x, inboxOf { st with next_uuid := st.next_uuid + 1 } x =
        inboxOf st x := fun _ => rfl
    have hbp : allProcessed { st with next_uuid := st.next_uuid + 1 } =
        allProcessed st := rfl
    rw [hbh] at d1
    rw [hbn] at d2
    rw [hbk] at d3
    simp only [hbi] at d4
    rw [hbp] at d5
    have hWF2 : WF (broadcast_step m a st) := by
      refine ⟨by rw [d3]; exact h1, by rw [d3]; exact h2, ?_, ?_⟩
      · intro mid hmid
        rw [d5] at hmid
        have := h3 mid hmid
        rw [d2]
        omega
      · intro m' hm'
        rw [d1] at hm'
        rw [d2]
        rcases List.mem_append.mp hm' with hm'' | hm''
        · have := h4 m' hm''
          omega
        · simp only [List.mem_singleton] at hm''
          subst hm''
          simp [mkCopy]
    obtain ⟨i1, i2, i3, i4, i5, i6⟩ := ih (broadcast_step m a st) hWF2
      (by rw [d3]; exact hsend)
      (fun a' ha' => by rw [d3]; exact has a' (List.mem_cons_of_mem _ ha'))
      (fun a' ha' => hne a' (List.mem_cons_of_mem _ ha'))
    have hn2 : (broadcast_step m a st).next_uuid = st.next_uuid + 1 := d2
    have hh2 : (broadcast_step m a st).message_history =
        st.message_history ++ [mkCopy m a st.next_uuid] := d1
    have hgo1 : (broadcast_go m (a :: rest) st).1 =
        (broadcast_go m rest (broadcast_step m a st)).1 := rfl
    have hgo2 : (broadcast_go m (a :: rest) st).2 =
        (broadcast_go m rest (broadcast_step m a st)).2 + 1 := rfl
    rw [hn2] at i1 i3 i5
    refine ⟨?_, ?_, ?_, ?_, ?_, ?_⟩
    · rw [hgo1, i1, hh2, List.append_assoc]
      rfl
    · rw [hgo2, i2]
      rfl
    · rw [hgo1, i3]
      simp [List.length_cons]
      omega
    · rw [hgo1, i4, d3]
    · intro x
      rw [hgo1, i5 x, d4 x, List.append_assoc]
      refine congrArg (fun l => inboxOf st x ++ l) ?_
      show (if (mkCopy m a st.next_uuid).recipient_id = x
          then [mkCopy m a st.next_uuid] else []) ++
          (mkCopies m rest (st.next_uuid + 1)).filter
            (fun c => c.recipient_id == x) =
        (mkCopy m a st.next_uuid :: mkCopies m rest (st.next_uuid + 1)).filter
          (fun c => c.recipient_id == x)
      rw [List.filter_cons]
      by_cases hax : a = x
      · subst hax
        simp [mkCopy]
      · have hb2 : ((mkCopy m a st.next_uuid).recipient_id == x) = false := by
          simp [mkCopy, hax]
        simp [mkCopy, hax, hb2]
    · exact i6

theorem broadcast_recipients_register (st : P2PState) (m : AgentMessage) :
    broadcast_recipients (st.register_agent m.sender_id) m =
      broadcast_recipients st m := by
  unfold broadcast_recipients P2PState.register_agent
  split
  · rfl
  · rw [List.map_append, List.filter_append]
    simp

theorem send_broadcast_spec (st : P2PState) (m : AgentMessage)
    (hWF : WF st) (hb : m.recipient_id = "broadcast")
    (hsb : m.sender_id ≠ "broadcast") :
    (send_message st m).1.message_history =
      st.message_history ++ mkCopies m (broadcast_recipients st m) st.next_uuid
    ∧ inboxOf (send_message st m).1 m.sender_id = inboxOf st m.sender_id
    ∧ (∀ a ∈ broadcast_recipients st m,
        inboxOf (send_message st m).1 a =
          inboxOf st a ++ (mkCopies m (broadcast_recipients st m)
            st.next_uuid).filter (fun c => c.recipient_id == a))
    ∧ ((send_message st m).2 = true ↔ broadcast_recipients st m ≠ [])
    ∧ (broadcast_recipients st m).Nodup := by
  have hWF1 : WF (st.register_agent m.sender_id) := WF_register hWF hsb
  have hrec_eq : broadcast_recipients (st.register_agent m.sender_id) m =
      broadcast_recipients st m := broadcast_recipients_register st m
  have hsend1 : m.sender_id ∈
      (st.register_agent m.sender_id).agent_queues.map Prod.fst :=
    mem_keys_register_self st m.sender_id
  have has1 : ∀ a ∈ broadcast_recipients st m,
      a ∈ (st.register_agent m.sender_id).agent_queues.map Prod.fst := by
    intro a haq
    exact mem_keys_register_of_mem _ (List.mem_of_mem_filter haq)
  have hne1 : ∀ a ∈ broadcast_recipients st m, a ≠ m.sender_id := by
    intro a haq
    have hf := List.of_mem_filter haq
    simpa using hf
  obtain ⟨g1, g2, g3, g4, g5, g6⟩ :=
    broadcast_go_spec m (broadcast_recipients st m)
      (st.register_agent m.sender_id) hWF1 hsend1 has1 hne1
  have hsend_eq : send_message st m =
      ((broadcast_go m (broadcast_recipients st m)
          (st.register_agent m.sender_id)).1,
        decide (0 < (broadcast_go m (broadcast_recipients st m)
          (st.register_agent m.sender_id)).2)) := by
    unfold send_message
    rw [if_pos (show (m.recipient_id == "broadcast") = true by simp [hb])]
    rw [hrec_eq]
  rw [hsend_eq]
  refine ⟨?_, ?_, ?_, ?_, ?_⟩
  · rw [g1, history_register, next_uuid_register]
  · rw [g5 m.sender_id, inboxOf_register]
    have hfilter : (mkCopies m (broadcast_recipients st m)
        (st.register_agent m.sender_id).next_uuid).filter
        (fun c => c.recipient_id == m.sender_id) = [] := by
      rw [List.filter_eq_nil_iff]
      intro c hc
      have hcr : c.recipient_id ∈ broadcast_recipients st m := by
        have hmm := List.mem_map_of_mem (fun c => c.recipient_id) hc
        rw [mkCopies_map_recipient] at hmm
        exact hmm
      have hner := hne1 _ hcr
      simpa using hner
    rw [hfilter, List.append_nil]
  · intro a haq
    rw [g5 a, inboxOf_register, next_uuid_register]
  · rw [g2]
    simp [List.length_pos]
  · exact List.Nodup.filter _ hWF.1

/-- C6: a broadcast send fans out exactly one individually addressed
copy per registered agent other than the sender (in registration order),
each copy carrying a fresh message id (successive counter values, so
pairwise distinct and distinct from every id already in the history)
while all copies share the original's conversation id and sender; the
sender's inbox is untouched, each other agent's inbox receives exactly
one copy, and the call returns true iff at least one copy was delivered
(false when no other agent is registered). -/
theorem broadcast_fan_out (st : P2PState) (m : AgentMessage)
    (hWF : WF st) (hb : m.recipient_id = "broadcast")
    (hsb : m.sender_id ≠ "broadcast") :
    (send_message st m).1.message_history =
      st.message_history ++ mkCopies m (broadcast_recipients st m) st.next_uuid
    ∧ (mkCopies m (broadcast_recipients st m) st.next_uuid).map
        (fun c => c.recipient_id) = broadcast_recipients st m
    ∧ (mkCopies m (broadcast_recipients st m) st.next_uuid).map
        (fun c => c.message_id) =
        List.range' st.next_uuid (broadcast_recipients st m).length
    ∧ ((mkCopies m (broadcast_recipients st m) st.next_uuid).map
        (fun c => c.message_id)).Nodup
    ∧ (∀ c ∈ mkCopies m (broadcast_recipients st m) st.next_uuid,
        c.conversation_id = m.conversation_id ∧ c.sender_id = m.sender_id
        ∧ ∀ h ∈ st.message_history, c.message_id ≠ h.message_id)
    ∧ inboxOf (send_message st m).1 m.sender_id = inboxOf st m.sender_id
    ∧ (∀ a ∈ broadcast_recipients st m,
        ((mkCopies m (broadcast_recipients st m) st.next_uuid).filter
          (fun c => c.recipient_id == a)).length = 1
        ∧ inboxOf (send_message st m).1 a =
          inboxOf st a ++ (mkCopies m (broadcast_recipients st m)
            st.next_uuid).filter (fun c => c.recipient_id == a))
    ∧ ((send_message st m).2 = true ↔ broadcast_recipients st m ≠ []) := by
  obtain ⟨s1, s2, s3, s4, s5⟩ := send_broadcast_spec st m hWF hb hsb
  refine ⟨s1, mkCopies_map_recipient _ _ _, mkCopies_map_id _ _ _, ?_, ?_, s2,
    ?_, s4⟩
  · rw [mkCopies_map_id]
    exact List.nodup_range' _ _
  · intro c hc
    obtain ⟨hcs, -, -, -, -, hconv, -⟩ := mkCopies_fields _ _ _ c hc
    refine ⟨hconv, hcs, ?_⟩
    intro hmsg hmem
    have hidm : c.message_id ∈ List.range' st.next_uuid
        (broadcast_recipients st m).length := by
      have hmm := List.mem_map_of_mem (fun c => c.message_id) hc
      rw [mkCopies_map_id] at hmm
      exact hmm
    have hge : st.next_uuid ≤ c.message_id := (List.mem_range'_1.mp hidm).1
    have hlt := hWF.2.2.2 hmsg hmem
    omega
  · intro a haq
    refine ⟨?_, s3 a haq⟩
    rw [mkCopies_filter_recipient_length]
    exact List.count_eq_one_of_mem s5 haq

/-- A concrete manager state with three registered agents and a used-up
uuid counter. -/
def stW : P2PState :=
  { agent_queues := [("alice", { agent_id := "alice" }),
      ("bob", { agent_id := "bob" }), ("carol", { agent_id := "carol" })],
    next_uuid := 5 }

/-- A broadcast message from alice carrying a conversation id and
requires_response set, to exhibit that copies do not propagate it. -/
def mW : AgentMessage :=
  { message_id := 99, conversation_id := some 42, sender_id := "alice",
    recipient_id := "broadcast", message_type := .broadcast, timestamp := 0,
    subject := "hello", content := [("k", "v")], requires_response := true }

/-- The concrete state stW is well formed. -/
theorem stW_WF : WF stW := ⟨by decide, by decide, by decide, by decide⟩

/-- Witness for C6: the fan-out theorem applied to the concrete state
(two recipients, bob and carol). -/
theorem broadcast_fan_out_witness :
    (send_message stW mW).1.message_history =
      stW.message_history ++
        mkCopies mW (broadcast_recipients stW mW) stW.next_uuid
    ∧ (mkCopies mW (broadcast_recipients stW mW) stW.next_uuid).map
        (fun c => c.recipient_id) = broadcast_recipients stW mW
    ∧ (mkCopies mW (broadcast_recipients stW mW) stW.next_uuid).map
        (fun c => c.message_id) =
        List.range' stW.next_uuid (broadcast_recipients stW mW).length
    ∧ ((mkCopies mW (broadcast_recipients stW mW) stW.next_uuid).map
        (fun c => c.message_id)).Nodup
    ∧ (∀ c ∈ mkCopies mW (broadcast_recipients stW mW) stW.next_uuid,
        c.conversation_id = mW.conversation_id ∧ c.sender_id = mW.sender_id
        ∧ ∀ h ∈ stW.message_history, c.message_id ≠ h.message_id)
    ∧ inboxOf (send_message stW mW).1 mW.sender_id = inboxOf stW mW.sender_id
    ∧ (∀ a ∈ broadcast_recipients stW mW,
        ((mkCopies mW (broadcast_recipients stW mW) stW.next_uuid).filter
          (fun c => c.recipient_id == a)).length = 1
        ∧ inboxOf (send_message stW mW).1 a =
          inboxOf stW a ++ (mkCopies mW (broadcast_recipients stW mW)
            stW.next_uuid).filter (fun c => c.recipient_id == a))
    ∧ ((send_message stW mW).2 = true ↔ broadcast_recipients stW mW ≠ []) :=
  broadcast_fan_out stW mW stW_WF rfl (by decide)

/-- C10: every copy delivered by a broadcast carries only the original's
sender id, type, priority, subject, content and conversation id; the
reply_to, expires_at, attachments, requires_response and
expected_response_time fields are not propagated and revert to their
defaults on every copy (so a broadcast of a requires_response message
delivers copies with requires_response = false). -/
theorem broadcast_copies_reset_optional_fields (st : P2PState)
    (m : AgentMessage) (hWF : WF st) (hb : m.recipient_id = "broadcast")
    (hsb : m.sender_id ≠ "broadcast") :
    ∀ c ∈ (send_message st m).1.message_history.drop st.message_history.length,
      c.sender_id = m.sender_id ∧ c.message_type = m.message_type
      ∧ c.priority = m.priority ∧ c.subject = m.subject
      ∧ c.content = m.content ∧ c.conversation_id = m.conversation_id
      ∧ c.reply_to = none ∧ c.expires_at = none ∧ c.attachments = []
      ∧ c.requires_response = false ∧ c.expected_response_time = none
      ∧ c.processed = false ∧ c.response_sent = false := by
  obtain ⟨s1, -, -, -, -⟩ := send_broadcast_spec st m hWF hb hsb
  intro c hc
  rw [s1, List.drop_left] at hc
  exact mkCopies_fields _ _ _ c hc

/-- Witness for C10: the field-reset theorem at the concrete broadcast of
mW (which has requires_response = true) over stW, instantiated at the
copy delivered to bob. -/
theorem broadcast_copies_reset_optional_fields_witness :
    (mkCopy mW "bob" 5).sender_id = mW.sender_id
    ∧ (mkCopy mW "bob" 5).message_type = mW.message_type
    ∧ (mkCopy mW "bob" 5).priority = mW.priority
    ∧ (mkCopy mW "bob" 5).subject = mW.subject
    ∧ (mkCopy mW "bob" 5).content = mW.content
    ∧ (mkCopy mW "bob" 5).conversation_id = mW.conversation_id
    ∧ (mkCopy mW "bob" 5).reply_to = none
    ∧ (mkCopy mW "bob" 5).expires_at = none
    ∧ (mkCopy mW "bob" 5).attachments = []
    ∧ (mkCopy mW "bob" 5).requires_response = false
    ∧ (mkCopy mW "bob" 5).expected_response_time = none
    ∧ (mkCopy mW "bob" 5).processed = false
    ∧ (mkCopy mW "bob" 5).response_sent = false :=
  broadcast_copies_reset_optional_fields stW mW stW_WF rfl (by decide)
    (mkCopy mW "bob" 5) (by decide)

end AgentWeaver
